import Mathlib

/-!
# Verification of the rufus crawl engine

This file is a shallow embedding of the crawl engine of the `rufus`
repository (`rufus/crawler/crawler.py`, `rufus/crawler/parser.py`,
`rufus/utils/error.py`) together with the parts of CPython's
`urllib.parse` module that the source calls (`urlparse`, `urljoin`),
modelled after CPython 3.8-3.10 (`Lib/urllib/parse.py`).

Conventions of the embedding:
* Python strings are `List Char` internally, `String` at the interface.
* A Python function that can raise an exception observed by a caller is
  `Option`/`Except`-valued (`none`/`.error` = the exception).
* Python `set` objects used only for membership (`visited_urls`) are
  `Finset String`.
* Machine-irrelevant record fields (timestamps, content-type headers)
  are omitted; claims about records are stated "modulo timestamps" in
  the specification.
-/

namespace Rufus

/-! ## CPython `urllib.parse` model

`urlsplit`/`urlparse` with the C0-control lstrip and tab/CR/LF removal
performed by modern CPython, the scheme-character validation, the netloc
bracket `ValueError` (modelled as `none`), the `params` split of
`urlparse`, and `urljoin`'s RFC-3986 resolution including its special
scheme lists. -/

/-- Characters allowed in a URL scheme after the first
(`scheme_chars` in CPython). -/
def schemeChar (c : Char) : Bool :=
  (65 ≤ c.toNat && c.toNat ≤ 90) || (97 ≤ c.toNat && c.toNat ≤ 122) ||
  (48 ≤ c.toNat && c.toNat ≤ 57) || c = '+' || c = '-' || c = '.'

/-- ASCII alphabetic test (`str.isascii() and str.isalpha()` on one char). -/
def asciiAlpha (c : Char) : Bool :=
  (65 ≤ c.toNat && c.toNat ≤ 90) || (97 ≤ c.toNat && c.toNat ≤ 122)

/-- ASCII lowercasing of one character; URL schemes that reach
`str.lower()` consist of `schemeChar`s only, which are ASCII. -/
def asciiLower (c : Char) : Char :=
  if 65 ≤ c.toNat && c.toNat ≤ 90 then Char.ofNat (c.toNat + 32) else c

/-- WHATWG C0-control-or-space class stripped by `urlsplit`. -/
def c0OrSpace (c : Char) : Bool := c.toNat ≤ 32

/-- `_UNSAFE_URL_BYTES_TO_REMOVE` in CPython: tab, CR, LF. -/
def unsafeUrlByte (c : Char) : Bool := c = '\t' || c = '\r' || c = '\n'

/-- `urlsplit`'s input sanitization on the URL argument: lstrip
C0-control/space, then remove tab/CR/LF. -/
def sanitizeUrl (l : List Char) : List Char :=
  (l.dropWhile c0OrSpace).filter (fun c => !unsafeUrlByte c)

/-- `urlsplit`'s sanitization of the default-scheme argument:
strip C0-control/space on both sides, then remove tab/CR/LF. -/
def sanitizeScheme (l : List Char) : List Char :=
  (((l.dropWhile c0OrSpace).reverse.dropWhile c0OrSpace).reverse).filter
    (fun c => !unsafeUrlByte c)

/-- Everything before the first occurrence of `d` (the whole list if
`d` is absent): first half of Python `s.split(d, 1)`. -/
def upTo (d : Char) (l : List Char) : List Char := l.takeWhile (· ≠ d)

/-- Everything after the first occurrence of `d` (empty if `d` is
absent): second half of Python `s.split(d, 1)`. -/
def beyond (d : Char) (l : List Char) : List Char :=
  (l.dropWhile (· ≠ d)).drop 1

/-- Does `small` occur at the start of `big`? (Python
`str.startswith`). -/
def leadsWith : List Char → List Char → Bool
  | [], _ => true
  | _ :: _, [] => false
  | a :: as, b :: bs => a = b && leadsWith as bs

/-- Python `str.endswith`. -/
def trailsWith (suf l : List Char) : Bool :=
  leadsWith suf.reverse l.reverse

/-- Python `pat in s` substring containment. -/
def containsSub (pat : List Char) : List Char → Bool
  | [] => pat.isEmpty
  | c :: rest => leadsWith pat (c :: rest) || containsSub pat rest

/-- Characters terminating a netloc (`_splitnetloc` delimiters). -/
def netlocEnd (c : Char) : Bool := c = '/' || c = '?' || c = '#'

/-- Result of `urlparse`: the six components.  `urlsplit` results have
`params = []`. -/
structure UrlParts where
  scheme  : List Char
  netloc  : List Char
  path    : List Char
  params  : List Char
  query   : List Char
  fragment : List Char
deriving DecidableEq

/-- `uses_relative` list of CPython `urllib.parse`. -/
def usesRelative : List (List Char) :=
  ["", "ftp", "http", "gopher", "nntp", "imap", "wais", "file", "https",
   "shttp", "mms", "prospero", "rtsp", "rtspu", "sftp", "svn", "svn+ssh",
   "ws", "wss"].map String.data

/-- `uses_netloc` list of CPython `urllib.parse`. -/
def usesNetloc : List (List Char) :=
  ["", "ftp", "http", "gopher", "nntp", "telnet", "imap", "wais", "file",
   "mms", "https", "shttp", "snews", "prospero", "rtsp", "rtspu", "rsync",
   "svn", "svn+ssh", "sftp", "nfs", "git", "git+ssh", "ws", "wss"].map
    String.data

/-- `uses_params` list of CPython `urllib.parse`. -/
def usesParams : List (List Char) :=
  ["", "ftp", "hdl", "prospero", "http", "imap", "https", "shttp", "rtsp",
   "rtspu", "sip", "sips", "mms", "sftp", "tel"].map String.data

/-- `urlsplit(url, scheme=ds, allow_fragments=True)`.  Returns `none`
exactly where CPython raises `ValueError` (unbalanced brackets in the
netloc). -/
def urlsplitL (url0 ds0 : List Char) : Option UrlParts :=
  let url := sanitizeUrl url0
  let ds := sanitizeScheme ds0
  let pre := url.takeWhile (· ≠ ':')
  let detected : Bool :=
    decide (':' ∈ url) && !pre.isEmpty &&
    (match pre.head? with | some c => asciiAlpha c | none => false) &&
    pre.all schemeChar
  let scheme := if detected then pre.map asciiLower else ds
  let rest := if detected then url.drop (pre.length + 1) else url
  match rest with
  | '/' :: '/' :: rest2 =>
    let netloc := rest2.takeWhile (fun c => !netlocEnd c)
    let rest3 := rest2.dropWhile (fun c => !netlocEnd c)
    if (decide ('[' ∈ netloc) && decide (']' ∉ netloc)) ||
       (decide (']' ∈ netloc) && decide ('[' ∉ netloc)) then none
    else
      let fragment := beyond '#' rest3
      let mid := upTo '#' rest3
      some { scheme := scheme, netloc := netloc, path := upTo '?' mid,
             params := [], query := beyond '?' mid, fragment := fragment }
  | _ =>
    let fragment := beyond '#' rest
    let mid := upTo '#' rest
    some { scheme := scheme, netloc := [], path := upTo '?' mid,
           params := [], query := beyond '?' mid, fragment := fragment }

/-- `_splitparams(url)`: split `;params` off the last path segment. -/
def splitparamsL (l : List Char) : List Char × List Char :=
  if '/' ∈ l then
    let seg := (l.reverse.takeWhile (· ≠ '/')).reverse
    let pre := l.take (l.length - seg.length)
    if ';' ∈ seg then (pre ++ upTo ';' seg, beyond ';' seg) else (l, [])
  else (upTo ';' l, beyond ';' l)

/-- `urlparse(url, scheme=ds)`: `urlsplit` plus the `params` split when
the scheme is in `uses_params`. -/
def urlparseL (url ds : List Char) : Option UrlParts :=
  (urlsplitL url ds).map fun u =>
    if u.scheme ∈ usesParams ∧ ';' ∈ u.path then
      let (p, pr) := splitparamsL u.path
      { u with path := p, params := pr }
    else u

/-- `urlunsplit((scheme, netloc, path, query, fragment))`. -/
def urlunsplitL (scheme netloc path query fragment : List Char) :
    List Char :=
  let url := path
  let url :=
    if !netloc.isEmpty || (!url.isEmpty && url.take 2 = ['/', '/']) then
      let u2 := if !url.isEmpty && url.head? ≠ some '/' then '/' :: url
                else url
      '/' :: '/' :: (netloc ++ u2)
    else url
  let url := if !scheme.isEmpty then scheme ++ ':' :: url else url
  let url := if !query.isEmpty then url ++ '?' :: query else url
  if !fragment.isEmpty then url ++ '#' :: fragment else url

/-- `urlunparse`: re-attach `params` to the path, then `urlunsplit`. -/
def urlunparseL (scheme netloc path params query fragment : List Char) :
    List Char :=
  let p := if !params.isEmpty then path ++ ';' :: params else path
  urlunsplitL scheme netloc p query fragment

/-- Split a character list at every delimiter recognized by `p`
(always at least one piece): Python `str.split(d)`. -/
def splitCharsBy (p : Char → Bool) : List Char → List (List Char)
  | [] => [[]]
  | c :: rest =>
    if p c then [] :: splitCharsBy p rest
    else
      match splitCharsBy p rest with
      | [] => [[c]]
      | s :: ss => (c :: s) :: ss

/-- Python `str.split('/')`. -/
def splitSlash : List Char → List (List Char) :=
  splitCharsBy (fun c => c = '/')

/-- Python `'/'.join(pieces)`. -/
def joinSlash (l : List (List Char)) : List Char :=
  List.intercalate ['/'] l

/-- Helper for `filterMid`: filter empty segments, keeping the final
element unconditionally. -/
def filterMidAux : List (List Char) → List (List Char)
  | [] => []
  | [z] => [z]
  | s :: rest =>
    if s.isEmpty then filterMidAux rest else s :: filterMidAux rest

/-- `segments[1:-1] = filter(None, segments[1:-1])`: drop empty
segments except in first and last position. -/
def filterMid : List (List Char) → List (List Char)
  | [] => []
  | [a] => [a]
  | a :: rest => a :: filterMidAux rest

/-- The dot-segment resolution loop of `urljoin` (`'..'` pops, `'.'` is
skipped, a pop of an empty stack is ignored). -/
def resolveSegs : List (List Char) → List (List Char) → List (List Char)
  | [], acc => acc
  | s :: rest, acc =>
    if s = ['.', '.'] then resolveSegs rest acc.dropLast
    else if s = ['.'] then resolveSegs rest acc
    else resolveSegs rest (acc ++ [s])

/-- `urljoin(base, url)`.  `none` where CPython raises `ValueError`. -/
def urljoinL (base url : List Char) : Option (List Char) :=
  if base.isEmpty then some url
  else if url.isEmpty then some base
  else do
    let b ← urlparseL base []
    let u ← urlparseL url b.scheme
    if u.scheme ≠ b.scheme ∨ u.scheme ∉ usesRelative then
      return url
    else do
      let netloc :=
        if u.scheme ∈ usesNetloc ∧ u.netloc ≠ [] then u.netloc
        else if u.scheme ∈ usesNetloc then b.netloc
        else u.netloc
      if u.scheme ∈ usesNetloc ∧ u.netloc ≠ [] then
        return urlunparseL u.scheme u.netloc u.path u.params u.query
          u.fragment
      else if u.path = [] ∧ u.params = [] then
        let query := if u.query = [] then b.query else u.query
        return urlunparseL u.scheme netloc b.path b.params query u.fragment
      else
        let baseParts0 := splitSlash b.path
        let baseParts :=
          if baseParts0.getLast? ≠ some [] then baseParts0.dropLast
          else baseParts0
        let segments :=
          if u.path.head? = some '/' then splitSlash u.path
          else filterMid (baseParts ++ splitSlash u.path)
        let resolved := resolveSegs segments []
        let resolved :=
          if segments.getLast? = some ['.'] ∨
             segments.getLast? = some ['.', '.'] then resolved ++ [[]]
          else resolved
        let rp := joinSlash resolved
        let rp := if rp.isEmpty then ['/'] else rp
        return urlunparseL u.scheme netloc rp u.params u.query u.fragment

/-- The link normalization performed inside
`HTMLParser.extract_links`: `urljoin`, re-`urlparse`, rebuild as
`scheme://netloc+path` plus the query when nonempty (fragment and
params dropped). -/
def normalizeLinkL (base href : List Char) : Option (List Char) := do
  let absUrl ← urljoinL base href
  let p ← urlparseL absUrl []
  return p.scheme ++ ':' :: '/' :: '/' :: (p.netloc ++ p.path) ++
    (if p.query ≠ [] then '?' :: p.query else [])

/-- String-level `urlparse` with empty default scheme, as the crawler
calls it. -/
def urlparseS (s : String) : Option UrlParts := urlparseL s.data []

/-- String-level link normalization. -/
def normalizeLink (base href : String) : Option String :=
  (normalizeLinkL base.data href.data).map (⟨·⟩)

example : normalizeLink "http://h/x" "a" = some "http://h/a" := by decide
example : normalizeLink "http://h/x/y" "../b?q=1#frag"
    = some "http://h/b?q=1" := by decide
example : normalizeLink "http://h/x" "https://other.org/p"
    = some "https://other.org/p" := by decide
example : urlparseS "http://h/a;p" =
    some ⟨"http".data, "h".data, "/a".data, "p".data, [], []⟩ := by decide

/-! ## HTML document model (`rufus/crawler/parser.py` over BeautifulSoup)

An HTML document is a tree; elements carry only the attributes the
source reads (`id`, `class`, `href`).  BeautifulSoup's `find`/`find_all`
search the strict descendants of a tag in document (preorder) order;
`get_text(strip=True)` concatenates the stripped string descendants. -/

inductive HtmlNode where
  | elem (tag : String) (idAttr : Option String) (classes : List String)
      (href : Option String) (children : List HtmlNode)
  | text (s : String)

mutual

/-- Decidable structural equality on HTML nodes (BeautifulSoup's
`Tag.__eq__` compares name, attributes and contents recursively). -/
def HtmlNode.decEq : (a b : HtmlNode) → Decidable (a = b)
  | .text s1, .text s2 =>
    if h : s1 = s2 then .isTrue (by rw [h]) else .isFalse (by simp [h])
  | .text _, .elem _ _ _ _ _ => .isFalse (by simp)
  | .elem _ _ _ _ _, .text _ => .isFalse (by simp)
  | .elem t1 i1 c1 h1 cs1, .elem t2 i2 c2 h2 cs2 =>
    if ht : t1 = t2 then
      if hi : i1 = i2 then
        if hc : c1 = c2 then
          if hh : h1 = h2 then
            match HtmlNode.decEqList cs1 cs2 with
            | .isTrue hcs => .isTrue (by rw [ht, hi, hc, hh, hcs])
            | .isFalse hcs => .isFalse (by simp [hcs])
          else .isFalse (by simp [hh])
        else .isFalse (by simp [hc])
      else .isFalse (by simp [hi])
    else .isFalse (by simp [ht])

/-- Decidable equality on lists of HTML nodes. -/
def HtmlNode.decEqList : (a b : List HtmlNode) → Decidable (a = b)
  | [], [] => .isTrue rfl
  | [], _ :: _ => .isFalse (by simp)
  | _ :: _, [] => .isFalse (by simp)
  | a :: as, b :: bs =>
    match HtmlNode.decEq a b, HtmlNode.decEqList as bs with
    | .isTrue h1, .isTrue h2 => .isTrue (by rw [h1, h2])
    | .isFalse h1, _ => .isFalse (by simp [h1])
    | _, .isFalse h2 => .isFalse (by simp [h2])

end

instance : DecidableEq HtmlNode := HtmlNode.decEq

mutual

/-- Preorder linearization of a subtree, the node itself first:
BeautifulSoup's `self` + `descendants` order. -/
def HtmlNode.preorder : HtmlNode → List HtmlNode
  | .text s => [.text s]
  | .elem t i c h children =>
    .elem t i c h children :: HtmlNode.preorderList children

/-- Preorder linearization of a forest. -/
def HtmlNode.preorderList : List HtmlNode → List HtmlNode
  | [] => []
  | n :: rest => n.preorder ++ HtmlNode.preorderList rest

end

/-- The children of a node. -/
def HtmlNode.children : HtmlNode → List HtmlNode
  | .text _ => []
  | .elem _ _ _ _ cs => cs

/-- Strict descendants in document order (a `find_all` search space). -/
def strictDesc (n : HtmlNode) : List HtmlNode :=
  HtmlNode.preorderList n.children

/-- The tag name of an element node. -/
def tagOf : HtmlNode → Option String
  | .elem t _ _ _ _ => some t
  | .text _ => none

/-- `tag.find_all(t)`. -/
def findAllTag (t : String) (n : HtmlNode) : List HtmlNode :=
  (strictDesc n).filter (fun m => decide (tagOf m = some t))

/-- `tag.find(t)`. -/
def findTag (t : String) (n : HtmlNode) : Option HtmlNode :=
  (findAllTag t n).head?

/-- `tag.find_all([t₁, t₂, ...])`. -/
def findAllTags (ts : List String) (n : HtmlNode) : List HtmlNode :=
  (strictDesc n).filter (fun m =>
    match tagOf m with
    | some t => decide (t ∈ ts)
    | none => false)

/-- `soup.find(id=v)`. -/
def findById (v : String) (n : HtmlNode) : Option HtmlNode :=
  ((strictDesc n).filter (fun m =>
    match m with
    | .elem _ (some i) _ _ _ => decide (i = v)
    | _ => false)).head?

/-- `soup.find(class_=v)`: first element whose class list contains `v`. -/
def findByClass (v : String) (n : HtmlNode) : Option HtmlNode :=
  ((strictDesc n).filter (fun m =>
    match m with
    | .elem _ _ cs _ _ => decide (v ∈ cs)
    | _ => false)).head?

/-- Python `str.strip()` whitespace class (ASCII part). -/
def pyIsSpace (c : Char) : Bool :=
  c.toNat = 32 || (9 ≤ c.toNat && c.toNat ≤ 13)

/-- Python `str.strip()` on a character list. -/
def pyStripL (l : List Char) : List Char :=
  ((l.dropWhile pyIsSpace).reverse.dropWhile pyIsSpace).reverse

/-- `tag.get_text(strip=True)`: concatenation of the stripped string
descendants. -/
def getTextStrip (n : HtmlNode) : String :=
  ⟨(n.preorder.filterMap fun m =>
      match m with
      | .text s => some (pyStripL s.data)
      | _ => none).flatten⟩

/-- `HTMLParser.extract_title`. -/
def extractTitle (doc : HtmlNode) : String :=
  match findTag "title" doc with
  | some t => getTextStrip t
  | none =>
    match findTag "h1" doc with
    | some h => getTextStrip h
    | none => "Untitled Page"

/-- `content_identifiers['id']` (a Python set literal; its iteration
order is arbitrary — the model fixes the source's literal order, and
no proved statement depends on the order). -/
def contentIds : List String :=
  ["content", "main", "article", "post", "main-content", "page-content"]

/-- `content_identifiers['class']` (set literal, same caveat). -/
def contentClasses : List String :=
  ["content", "article", "post", "main", "main-content", "page-content"]

/-- `skip_tags` set literal. -/
def skipTags : List String :=
  ["script", "style", "noscript", "iframe", "svg", "nav", "footer",
   "header", "aside", "form", "button", "input", "img"]

/-- `skip_identifiers['id']` set literal. -/
def skipIds : List String :=
  ["header", "footer", "sidebar", "menu", "nav", "navigation", "comments",
   "advertisement"]

/-- `skip_identifiers['class']` set literal. -/
def skipClasses : List String :=
  ["header", "footer", "sidebar", "menu", "nav", "navigation", "comments",
   "ad", "advertisement"]

/-- Number of `<p>` descendants: `len(div.find_all('p'))`. -/
def pCount (n : HtmlNode) : Nat := (findAllTag "p" n).length

/-- Python `max(xs, key=f)`: first element attaining the maximum
(later elements replace the champion only with a strictly larger key). -/
def argmaxFirst (f : HtmlNode → Nat) : List HtmlNode → Option HtmlNode
  | [] => none
  | x :: xs => some (xs.foldl (fun acc y => if f y > f acc then y else acc) x)

/-- `HTMLParser._find_main_content`. -/
def findMainContent (doc : HtmlNode) : Option HtmlNode :=
  match findTag "main" doc with
  | some c => some c
  | none =>
  match findTag "article" doc with
  | some c => some c
  | none =>
  match findTag "section" doc with
  | some c => some c
  | none =>
  match contentIds.findSome? (fun v => findById v doc) with
  | some c => some c
  | none =>
  match contentClasses.findSome? (fun v => findByClass v doc) with
  | some c => some c
  | none =>
  match argmaxFirst pCount (findAllTag "div" doc) with
  | some d => if pCount d > 2 then some d else none
  | none => none

/-- `HTMLParser._extract_headings`: levels 1–6, only nonempty lists. -/
def extractHeadings (c : HtmlNode) : List (Nat × List String) :=
  (List.range' 1 6).filterMap fun lvl =>
    let hs := findAllTag ("h" ++ toString lvl) c
    if hs.isEmpty then none else some (lvl, hs.map getTextStrip)

/-- `HTMLParser._extract_paragraphs`: nonempty stripped texts. -/
def extractParagraphs (c : HtmlNode) : List String :=
  (findAllTag "p" c).filterMap fun p =>
    let t := getTextStrip p
    if t = "" then none else some t

/-- One extracted list block. -/
structure ListBlock where
  kind : String
  items : List String
deriving DecidableEq

/-- `HTMLParser._extract_lists`. -/
def extractLists (c : HtmlNode) : List ListBlock :=
  (findAllTags ["ul", "ol"] c).filterMap fun lt =>
    let items := (findAllTag "li" lt).filterMap fun li =>
      let t := getTextStrip li
      if t = "" then none else some t
    if items.isEmpty then none
    else some { kind := if tagOf lt = some "ul" then "unordered"
                        else "ordered",
                items := items }

/-- One extracted table. -/
structure TableData where
  headers : List String
  rows : List (List String)
deriving DecidableEq

/-- The structural extraction failure of `_extract_tables`: the local
variable `first_row` is read at `tr == first_row` without ever being
assigned, which raises `UnboundLocalError` in Python.  This happens
exactly when the headers were found inside a `<thead>` (so the
assigning branch is skipped) and the row loop runs at least once. -/
inductive ExtractErr where
  | unboundLocalFirstRow
deriving DecidableEq

/-- `HTMLParser._extract_tables` for one `<table>` tag.  The model
scopes `first_row` to the table at hand; in Python the local persists
across the surrounding table loop, so on a *multi-table* document a
thead-headed table preceded by a `first_row`-assigning table does not
raise (its rows even compare against the earlier table's first row).
Statements proved about this function only exercise documents with at
most one table, where the two semantics agree. -/
def extractOneTable (table : HtmlNode) : Except ExtractErr TableData :=
  let headersFromThead :=
    match findTag "thead" table with
    | some th =>
      let ths := findAllTag "th" th
      if ths.isEmpty then [] else ths.map getTextStrip
    | none => []
  -- `first_row` is bound (to `table_tag.find('tr')`, possibly `None`)
  -- only when the thead lookup produced no headers.
  let (headers, firstRow?) :=
    if headersFromThead.isEmpty then
      let fr := findTag "tr" table
      let hdrs :=
        match fr with
        | some r =>
          let ths := findAllTag "th" r
          if ths.isEmpty then [] else ths.map getTextStrip
        | none => []
      (hdrs, some fr)
    else (headersFromThead, none)
  let tbody := (findTag "tbody" table).getD table
  let trs := findAllTag "tr" tbody
  match firstRow? with
  | none =>
    -- `first_row` unbound: `tr == first_row` raises on the first row.
    if trs.isEmpty then Except.ok { headers := headers, rows := [] }
    else Except.error ExtractErr.unboundLocalFirstRow
  | some fr =>
    let rows := trs.filterMap fun tr =>
      if some tr = fr ∧ headers ≠ [] then none
      else
        let row := (findAllTags ["td", "th"] tr).map getTextStrip
        if row.isEmpty then none else some row
    Except.ok { headers := headers, rows := rows }

/-- `HTMLParser._extract_tables`: tables with some content, in document
order; the first raising table aborts the whole call. -/
def extractTables (c : HtmlNode) : Except ExtractErr (List TableData) := do
  let datas ← (findAllTag "table" c).mapM extractOneTable
  return datas.filter fun d => !(d.headers.isEmpty && d.rows.isEmpty)

/-- Python `str.split()` (whitespace split, no empty pieces). -/
def pySplitWS (s : String) : List String :=
  (splitCharsBy pyIsSpace s.data).filterMap fun piece =>
    if piece.isEmpty then none else some ⟨piece⟩

/-- Does a node match the clean-text removal pass (`skip_tags` or
`skip_identifiers`)? -/
def matchesSkip : HtmlNode → Bool
  | .elem t i cs _ _ =>
    decide (t ∈ skipTags) ||
    (match i with
     | some iv => (pySplitWS iv).any (fun tok => decide (tok ∈ skipIds))
     | none => false) ||
    cs.any (fun cv => decide (cv ∈ skipClasses))
  | .text _ => false

mutual

/-- The `decompose()` pass of `_extract_clean_text`: remove every
subtree whose root matches the skip sets. -/
def pruneSkip : HtmlNode → Option HtmlNode
  | .text s => some (.text s)
  | .elem t i c h children =>
    if matchesSkip (.elem t i c h children) then none
    else some (.elem t i c h (pruneSkipList children))

/-- `pruneSkip` over a forest, dropping removed subtrees. -/
def pruneSkipList : List HtmlNode → List HtmlNode
  | [] => []
  | n :: rest =>
    match pruneSkip n with
    | none => pruneSkipList rest
    | some n' => n' :: pruneSkipList rest

end

/-- Tags at which `_extract_clean_text` inserts a line break. -/
def breakTags : List String :=
  ["p", "h1", "h2", "h3", "h4", "h5", "h6", "li", "tr", "br"]

/-- Contribution of one visited node to the raw clean text. -/
def emitNode : HtmlNode → List Char
  | .text s => s.data
  | .elem t _ _ _ _ => if t ∈ breakTags then ['\n'] else []

/-- `HTMLParser._extract_clean_text`. -/
def extractCleanText (c : HtmlNode) : String :=
  match pruneSkip c with
  | none => ""
  | some c' =>
    let raw := (c'.preorder.map emitNode).flatten
    let lines := (splitCharsBy (fun ch => ch = '\n') raw).map pyStripL
    ⟨List.intercalate ['\n'] (lines.filter (fun l => !l.isEmpty))⟩

/-- The structured content dictionary of `extract_content`. -/
structure StructuredContent where
  title : String
  headings : List (Nat × List String)
  paragraphs : List String
  lists : List ListBlock
  tables : List TableData
  text : String
deriving DecidableEq

/-- `HTMLParser.extract_content`: main-content localization (falling
back to `soup.body or soup`), then the five structural extractions.
`_extract_tables` is the only component that can raise; its exception
propagates out of `extract_content` (there is no handler here). -/
def extractContent (doc : HtmlNode) : Except ExtractErr StructuredContent := do
  let mainC := (findMainContent doc).getD ((findTag "body" doc).getD doc)
  let tables ← extractTables mainC
  return { title := extractTitle doc,
           headings := extractHeadings mainC,
           paragraphs := extractParagraphs mainC,
           lists := extractLists mainC,
           tables := tables,
           text := extractCleanText mainC }

/-- `HTMLParser.extract_links`: hrefs of anchors, minus fragment-only /
`javascript:` / `mailto:` links, normalized against the base URL, then
deduplicated through a Python `set` (modelled by `List.dedup`; the
set's iteration order is arbitrary and no proved statement depends on
it).  A `ValueError` from `urljoin`/`urlparse` aborts the whole call
(`none`). -/
def extractLinks (doc : HtmlNode) (baseUrl : String) :
    Option (List String) := do
  let hrefs := (strictDesc doc).filterMap fun n =>
    match n with
    | .elem t _ _ (some h) _ => if t = "a" then some h else none
    | _ => none
  let accepted := hrefs.filter fun h =>
    !(leadsWith "#".data h.data || leadsWith "javascript:".data h.data ||
      leadsWith "mailto:".data h.data)
  let normed ← accepted.mapM (fun h => normalizeLink baseUrl h)
  return normed.dedup

/-! ## Crawl engine model (`rufus/crawler/crawler.py`)

The fetch side (network, `requests`/`aiohttp` responses) is an oracle
`fetch : String → Option (Nat × HtmlNode)` giving the status code and
parsed document of a URL, or `none` for a network/timeout failure —
the "identical deterministic fetch responses" of the specification.
The sequential path accepts any response that passes
`raise_for_status` (status < 400) and records the real status code;
the concurrent path (`_fetch_and_parse`) accepts only status 200.

Both loops additionally return the dispatch trace: the `(url, depth)`
entries for which a fetch was actually started, in dispatch order
(inside one concurrent batch, in task-creation order).  The trace is a
ghost output used to state the visited-set and ordering invariants. -/

/-- The configuration fields the crawl engine reads (with the
defaults of `Config.DEFAULT_CONFIG`). -/
structure CrawlConfig where
  asyncCrawling : Bool := true
  batchSize : Nat := 5
  stayInDomain : Bool := true
  skipExtensions : List String := [".pdf", ".jpg", ".png", ".gif", ".zip", ".exe"]
  ignorePatterns : List String := ["login", "signup", "cart", "checkout", "account"]

/-- One emitted page record (`metadata` flattened; timestamp and
content-type omitted as machine-irrelevant). -/
structure PageRecord where
  url : String
  title : String
  content : StructuredContent
  depth : Nat
  status : Nat
deriving DecidableEq

/-- The per-link decision of `Crawler._filter_links` (`none` = the
`urlparse` call raised). -/
def keepLink (cfg : CrawlConfig) (domain : String) (link : String) :
    Option Bool := do
  let p ← urlparseS link
  if cfg.stayInDomain ∧ p.netloc ≠ domain.data then return false
  else if cfg.skipExtensions.any (fun ext => trailsWith ext.data link.data)
    then return false
  else if cfg.ignorePatterns.any
      (fun pat => containsSub pat.data link.data) then return false
  else return true

/-- `Crawler._filter_links`: keep links passing all three predicates,
in order; a raising `urlparse` aborts the whole call. -/
def filterLinks (cfg : CrawlConfig) (domain : String)
    (links : List String) : Option (List String) := do
  let keeps ← links.mapM (keepLink cfg domain)
  return (links.zip keeps).filterMap fun lk =>
    if lk.2 then some lk.1 else none

/-- Does a status code pass `Response.raise_for_status()`?
(4xx/5xx raise `HTTPError`.) -/
def statusOk (st : Nat) : Bool := !(400 ≤ st && st < 600)

/-- `Crawler._sync_crawl`.  State: frontier (`to_visit`), visited set,
accumulated results.  Returns `(results, dispatch trace)`.

Each iteration: pop the head; skip it if already visited; otherwise
mark it visited, fetch, and inside one `try` block: check the status,
extract the content, append the record, and (below the depth limit)
extract, filter and enqueue the unvisited links.  Any exception along
the way only ends the iteration, so an extraction failure before
`results.append` drops the page while a link-stage failure keeps the
already-appended record. -/
def syncCrawlLoop (fetch : String → Option (Nat × HtmlNode))
    (cfg : CrawlConfig) (domain : String) (maxPages depthLimit : Nat) :
    List (String × Nat) → Finset String → List PageRecord →
    List PageRecord × List (String × Nat)
  | [], _, results => (results, [])
  | (url, d) :: rest, visited, results =>
    if h : results.length < maxPages then
      if url ∈ visited then
        syncCrawlLoop fetch cfg domain maxPages depthLimit rest visited
          results
      else
        let visited' := insert url visited
        let tail :=
          match fetch url with
          | none =>
            syncCrawlLoop fetch cfg domain maxPages depthLimit rest
              visited' results
          | some (st, doc) =>
            if statusOk st then
              match extractContent doc with
              | .error _ =>
                syncCrawlLoop fetch cfg domain maxPages depthLimit rest
                  visited' results
              | .ok sc =>
                let results' := results ++
                  [({ url := url, title := extractTitle doc, content := sc,
                      depth := d, status := st } : PageRecord)]
                if d < depthLimit then
                  match extractLinks doc url with
                  | none =>
                    syncCrawlLoop fetch cfg domain maxPages depthLimit
                      rest visited' results'
                  | some links =>
                    match filterLinks cfg domain links with
                    | none =>
                      syncCrawlLoop fetch cfg domain maxPages depthLimit
                        rest visited' results'
                    | some fl =>
                      let newEntries :=
                        (fl.filter (fun l => decide (l ∉ visited'))).map
                          (fun l => (l, d + 1))
                      syncCrawlLoop fetch cfg domain maxPages depthLimit
                        (rest ++ newEntries) visited' results'
                else
                  syncCrawlLoop fetch cfg domain maxPages depthLimit rest
                    visited' results'
            else
              syncCrawlLoop fetch cfg domain maxPages depthLimit rest
                visited' results
        (tail.1, (url, d) :: tail.2)
    else (results, [])
termination_by toVisit _ results => (maxPages - results.length, toVisit.length)
decreasing_by
  all_goals simp_wf
  all_goals
    first
      | (apply Prod.Lex.right
         try simp only [List.length_append, List.length_cons,
           List.length_nil]
         omega)
      | (apply Prod.Lex.left
         try simp only [List.length_append, List.length_cons,
           List.length_nil]
         omega)

/-- The enqueue trace of `_sync_crawl`: the `(url, depth)` entries
appended to `to_visit`, in append order — a second ghost output of the
loop, defined by the same recursion (same branches, same state) so that
the FIFO discipline of the list queue can be stated: the dispatch
trace is a subsequence of the initial frontier followed by this
trace. -/
def syncEnqueues (fetch : String → Option (Nat × HtmlNode))
    (cfg : CrawlConfig) (domain : String) (maxPages depthLimit : Nat) :
    List (String × Nat) → Finset String → List PageRecord →
    List (String × Nat)
  | [], _, _ => []
  | (url, d) :: rest, visited, results =>
    if h : results.length < maxPages then
      if url ∈ visited then
        syncEnqueues fetch cfg domain maxPages depthLimit rest visited
          results
      else
        let visited' := insert url visited
        match fetch url with
        | none =>
          syncEnqueues fetch cfg domain maxPages depthLimit rest visited'
            results
        | some (st, doc) =>
          if statusOk st then
            match extractContent doc with
            | .error _ =>
              syncEnqueues fetch cfg domain maxPages depthLimit rest
                visited' results
            | .ok sc =>
              let results' := results ++
                [({ url := url, title := extractTitle doc, content := sc,
                    depth := d, status := st } : PageRecord)]
              if d < depthLimit then
                match extractLinks doc url with
                | none =>
                  syncEnqueues fetch cfg domain maxPages depthLimit rest
                    visited' results'
                | some links =>
                  match filterLinks cfg domain links with
                  | none =>
                    syncEnqueues fetch cfg domain maxPages depthLimit rest
                      visited' results'
                  | some fl =>
                    let newEntries :=
                      (fl.filter (fun l => decide (l ∉ visited'))).map
                        (fun l => (l, d + 1))
                    newEntries ++
                      syncEnqueues fetch cfg domain maxPages depthLimit
                        (rest ++ newEntries) visited' results'
              else
                syncEnqueues fetch cfg domain maxPages depthLimit rest
                  visited' results'
          else
            syncEnqueues fetch cfg domain maxPages depthLimit rest visited'
              results
    else []
termination_by toVisit _ results => (maxPages - results.length, toVisit.length)
decreasing_by
  all_goals simp_wf
  all_goals
    first
      | (apply Prod.Lex.right
         try simp only [List.length_append, List.length_cons,
           List.length_nil]
         omega)
      | (apply Prod.Lex.left
         try simp only [List.length_append, List.length_cons,
           List.length_nil]
         omega)

/-- `Crawler._fetch_and_parse` (static-HTTP variant): fetch, require
status 200, extract content and links, filter the links; any failure
(network, non-200, extraction or link exception) yields `none`, which
the batch loop records as a skipped page. -/
def fetchParseAsync (fetch : String → Option (Nat × HtmlNode))
    (cfg : CrawlConfig) (domain : String) (u : String) (d : Nat) :
    Option (PageRecord × List String) := do
  let (st, doc) ← fetch u
  if st ≠ 200 then none
  else do
    let sc ← (extractContent doc).toOption
    let links ← extractLinks doc u
    let fl ← filterLinks cfg domain links
    return (({ url := u, title := extractTitle doc, content := sc,
               depth := d, status := 200 } : PageRecord), fl)

/-- The result-processing loop of `_async_crawl`: walk the batch
outcomes in task order, appending records of successful pages and
enqueuing their not-yet-visited links at `depth + 1` (only below the
depth limit).  The visited set does not change during this loop. -/
def processBatch (depthLimit : Nat) (visited : Finset String) :
    List ((String × Nat) × Option (PageRecord × List String)) →
    List PageRecord × List (String × Nat)
  | [] => ([], [])
  | (_, none) :: rest => processBatch depthLimit visited rest
  | ((_, d), some (record, links)) :: rest =>
    let tail := processBatch depthLimit visited rest
    let newEntries :=
      if d < depthLimit then
        (links.filter (fun l => decide (l ∉ visited))).map
          (fun l => (l, d + 1))
      else []
    (record :: tail.1, newEntries ++ tail.2)

/-- If a batch produced no record it also enqueued nothing (links come
only from successful pages). -/
theorem processBatch_nil_links (depthLimit : Nat) (visited : Finset String)
    (l : List ((String × Nat) × Option (PageRecord × List String)))
    (h : (processBatch depthLimit visited l).1 = []) :
    (processBatch depthLimit visited l).2 = [] := by
  induction l with
  | nil => rfl
  | cons e rest ih =>
    match e with
    | (_, none) => exact ih h
    | ((_, d), some (record, links)) => simp [processBatch] at h

/-- `Crawler._async_crawl`.  Each iteration takes a batch of up to
`batch_size` frontier entries, creates one task per entry not yet
visited (a stale check: the visited set is only updated *after* the
task list is built, so a URL occurring twice in one batch is fetched
twice), marks every batch URL visited, resolves the batch (modelled in
task order), and processes the outcomes.  The results of a batch are
appended without re-checking `max_pages`, so a batch can overshoot it.

With `batch_size = 0` the Python loop never terminates (the batch is
empty and the frontier never shrinks); the model returns the
accumulated results there, and every statement about this function
either holds trivially for that case or assumes `batch_size ≥ 1`. -/
def asyncCrawlLoop (fetch : String → Option (Nat × HtmlNode))
    (cfg : CrawlConfig) (domain : String) (maxPages depthLimit : Nat) :
    List (String × Nat) → Finset String → List PageRecord →
    List PageRecord × List (String × Nat)
  | toVisit, visited, results =>
    if h1 : toVisit = [] then (results, [])
    else if h2 : results.length < maxPages then
      if hbs : cfg.batchSize = 0 then (results, [])
      else
        let batch := toVisit.take cfg.batchSize
        let rest := toVisit.drop cfg.batchSize
        let tasks := batch.filter (fun e => decide (e.1 ∉ visited))
        let visited' := visited ∪ (batch.map Prod.fst).toFinset
        let outcomes := tasks.map fun e =>
          (e, fetchParseAsync fetch cfg domain e.1 e.2)
        let processed := processBatch depthLimit visited' outcomes
        let tail := asyncCrawlLoop fetch cfg domain maxPages depthLimit
          (rest ++ processed.2) visited' (results ++ processed.1)
        (tail.1, tasks ++ tail.2)
    else (results, [])
termination_by toVisit _ results => (maxPages - results.length, toVisit.length)
decreasing_by
  simp_wf
  set Q := processBatch depthLimit
      (visited ∪ (List.take cfg.batchSize (List.map Prod.fst toVisit)).toFinset)
      (List.map (fun e => (e, fetchParseAsync fetch cfg domain e.1 e.2))
        (List.filter (fun e => !decide (e.1 ∈ visited))
          (List.take cfg.batchSize toVisit))) with hQ
  by_cases hrec : Q.1 = []
  · have hlinks : Q.2 = [] := processBatch_nil_links _ _ _ hrec
    rw [hrec, hlinks]
    apply Prod.Lex.right
    simp only [List.length_nil, Nat.add_zero, List.length_drop]
    have hlen : 0 < toVisit.length := List.length_pos.mpr h1
    omega
  · apply Prod.Lex.left
    have hlen : Q.1.length ≠ 0 := by simpa using hrec
    omega

/-- The enqueue trace of `_async_crawl` (counterpart of
`syncEnqueues`): the entries appended to `to_visit` batch by batch, in
append order. -/
def asyncEnqueues (fetch : String → Option (Nat × HtmlNode))
    (cfg : CrawlConfig) (domain : String) (maxPages depthLimit : Nat) :
    List (String × Nat) → Finset String → List PageRecord →
    List (String × Nat)
  | toVisit, visited, results =>
    if h1 : toVisit = [] then []
    else if h2 : results.length < maxPages then
      if hbs : cfg.batchSize = 0 then []
      else
        let batch := toVisit.take cfg.batchSize
        let rest := toVisit.drop cfg.batchSize
        let tasks := batch.filter (fun e => decide (e.1 ∉ visited))
        let visited' := visited ∪ (batch.map Prod.fst).toFinset
        let outcomes := tasks.map fun e =>
          (e, fetchParseAsync fetch cfg domain e.1 e.2)
        let processed := processBatch depthLimit visited' outcomes
        processed.2 ++ asyncEnqueues fetch cfg domain maxPages depthLimit
          (rest ++ processed.2) visited' (results ++ processed.1)
    else []
termination_by toVisit _ results => (maxPages - results.length, toVisit.length)
decreasing_by
  simp_wf
  set Q := processBatch depthLimit
      (visited ∪ (List.take cfg.batchSize (List.map Prod.fst toVisit)).toFinset)
      (List.map (fun e => (e, fetchParseAsync fetch cfg domain e.1 e.2))
        (List.filter (fun e => !decide (e.1 ∈ visited))
          (List.take cfg.batchSize toVisit))) with hQ
  by_cases hrec : Q.1 = []
  · have hlinks : Q.2 = [] := processBatch_nil_links _ _ _ hrec
    rw [hrec, hlinks]
    apply Prod.Lex.right
    simp only [List.length_nil, Nat.add_zero, List.length_drop]
    have hlen : 0 < toVisit.length := List.length_pos.mpr h1
    omega
  · apply Prod.Lex.left
    have hlen : Q.1.length ≠ 0 := by simpa using hrec
    omega

/-- The error outcomes of `Crawler.crawl` after the `handle_error`
decorator: the `RufusError("Invalid URL: ...")` seed check re-raised
unchanged, or a `ValueError` out of `urlparse` re-raised as
`CrawlerError`. -/
inductive CrawlError where
  | invalidSeed (url : String)
  | wrappedValueError
deriving DecidableEq

/-- `Crawler.crawl`: validate the seed URL (`urlparse` plus the
scheme/netloc check), reset the visited set, derive the session domain,
and run the mode selected by `async_crawling`.  The ghost dispatch
trace is returned alongside the results. -/
def crawl (fetch : String → Option (Nat × HtmlNode)) (cfg : CrawlConfig)
    (startUrl : String) (maxPages depthLimit : Nat) :
    Except CrawlError (List PageRecord × List (String × Nat)) :=
  match urlparseS startUrl with
  | none => .error .wrappedValueError
  | some p =>
    if p.scheme = [] ∨ p.netloc = [] then .error (.invalidSeed startUrl)
    else
      let domain : String := ⟨p.netloc⟩
      if cfg.asyncCrawling then
        .ok (asyncCrawlLoop fetch cfg domain maxPages depthLimit
          [(startUrl, 0)] ∅ [])
      else
        .ok (syncCrawlLoop fetch cfg domain maxPages depthLimit
          [(startUrl, 0)] ∅ [])

/-! ## A small concrete site used by witnesses and counterexamples

`http://h/` links to `/a` and `/b`; both `/a` and `/b` link to `/d`;
`/d` is a leaf.  All fetches return status 200 and extraction succeeds
everywhere. -/

/-- A page body with the given anchors. -/
def pageWith (anchors : List String) : HtmlNode :=
  .elem "html" none [] none
    [.elem "body" none [] none
      (anchors.map fun h => .elem "a" none [] (some h) [])]

/-- The deterministic fetch oracle of the concrete site. -/
def siteFetch : String → Option (Nat × HtmlNode) := fun u =>
  if u = "http://h/" then some (200, pageWith ["/a", "/b"])
  else if u = "http://h/a" then some (200, pageWith ["/d"])
  else if u = "http://h/b" then some (200, pageWith ["/d"])
  else if u = "http://h/d" then some (200, pageWith [])
  else none

instance {ε α : Type _} [DecidableEq ε] [DecidableEq α] :
    DecidableEq (Except ε α) := fun a b =>
  match a, b with
  | .ok x, .ok y =>
    if h : x = y then .isTrue (by rw [h]) else .isFalse (by simp [h])
  | .error x, .error y =>
    if h : x = y then .isTrue (by rw [h]) else .isFalse (by simp [h])
  | .ok _, .error _ => .isFalse (by simp)
  | .error _, .ok _ => .isFalse (by simp)

/-- The structured content every page of the concrete site extracts to. -/
def emptyContent : StructuredContent := ⟨"Untitled Page", [], [], [], [], ""⟩

/-- The page record the concrete site produces for a URL at a depth. -/
def siteRecord (u : String) (d : Nat) : PageRecord :=
  ⟨u, "Untitled Page", emptyContent, d, 200⟩

/-- The queue discipline relation of a breadth-first frontier: along the
frontier, depths are non-decreasing and within one of each other. -/
def depthStep (a b : Nat) : Prop := a ≤ b ∧ b ≤ a + 1

/-- A one-text paragraph element. -/
def pEl : HtmlNode := .elem "p" none [] none [.text "x"]

/-- A `<div>` with four paragraph descendants. -/
def bigDiv : HtmlNode := .elem "div" none [] none [pEl, pEl, pEl, pEl]

/-- A `<div>` with a single paragraph descendant. -/
def smallDiv : HtmlNode := .elem "div" none [] none [pEl]

/-- A document with no semantic container and no recognized id/class:
two bare divs, one with four paragraphs. -/
def divDoc : HtmlNode :=
  .elem "html" none [] none
    [.elem "body" none [] none [smallDiv, bigDiv]]

/-- A table whose header row sits inside a `<thead>` and whose body
holds one data row — the shape on which `_extract_tables` reads the
unassigned `first_row` local. -/
def theadTable : HtmlNode :=
  .elem "table" none [] none
    [.elem "thead" none [] none
      [.elem "tr" none [] none [.elem "th" none [] none [.text "H"]]],
     .elem "tbody" none [] none
      [.elem "tr" none [] none [.elem "td" none [] none [.text "v"]]]]

/-- A page whose only content is `theadTable`. -/
def theadPage : HtmlNode :=
  .elem "html" none [] none [.elem "body" none [] none [theadTable]]

/-- A single-page site serving `theadPage` with status 200. -/
def theadFetch : String → Option (Nat × HtmlNode) := fun u =>
  if u = "http://t/" then some (200, theadPage) else none

/-! ## Frontier and result invariants of the two crawl loops -/

/-- The sequential loop never grows the result list past `max_pages`. -/
theorem syncCrawlLoop_length_le (fetch : String → Option (Nat × HtmlNode))
    (cfg : CrawlConfig) (dom : String) (mp dl : Nat)
    (tv : List (String × Nat)) (vis : Finset String)
    (res : List PageRecord) (h : res.length ≤ mp) :
    (syncCrawlLoop fetch cfg dom mp dl tv vis res).1.length ≤ mp := by
  induction tv, vis, res using syncCrawlLoop.induct fetch cfg dom mp dl with
  | case1 vis res =>
    rw [syncCrawlLoop]
    exact h
  | case2 url d rest vis res hlt hmem ih =>
    rw [syncCrawlLoop]
    simp only [dif_pos hlt, if_pos hmem]
    exact ih h
  | case3 url d rest vis res hlt hmem vis' ih3 ih2 ih1 =>
    rw [syncCrawlLoop]
    simp only [dif_pos hlt, if_neg hmem]
    split
    · exact ih3 h
    · split
      · split
        · exact ih3 h
        · split
          · split
            · exact ih2 _ _ _ (by simp; omega)
            · split
              · exact ih2 _ _ _ (by simp; omega)
              · exact ih1 _ _ _ _ (by simp; omega)
          · exact ih2 _ _ _ (by simp; omega)
      · exact ih3 h
  | case4 url d rest vis res hlt =>
    rw [syncCrawlLoop]
    simp only [dif_neg hlt]
    exact h

/-- A batch produces at most one record per resolved task. -/
theorem processBatch_length_le (dl : Nat) (vis : Finset String)
    (l : List ((String × Nat) × Option (PageRecord × List String))) :
    (processBatch dl vis l).1.length ≤ l.length := by
  induction l with
  | nil => simp [processBatch]
  | cons e rest ih =>
    match e with
    | (_, none) =>
      simp only [processBatch, List.length_cons]
      omega
    | (e1, some (record, links)) =>
      simp only [processBatch, List.length_cons]
      omega

/-- Every record of a batch comes from a successful outcome in it. -/
theorem processBatch_records_mem (dl : Nat) (vis : Finset String)
    (l : List ((String × Nat) × Option (PageRecord × List String))) :
    ∀ r ∈ (processBatch dl vis l).1, ∃ e ls, (e, some (r, ls)) ∈ l := by
  induction l with
  | nil => simp [processBatch]
  | cons p rest ih =>
    match p with
    | (_, none) =>
      intro r hr
      obtain ⟨e, ls, hm⟩ := ih r hr
      exact ⟨e, ls, List.mem_cons_of_mem _ hm⟩
    | (e1, some (record, links)) =>
      intro r hr
      simp only [processBatch, List.mem_cons] at hr
      rcases hr with rfl | hr
      · exact ⟨e1, links, List.mem_cons_self _ _⟩
      · obtain ⟨e, ls, hm⟩ := ih r hr
        exact ⟨e, ls, List.mem_cons_of_mem _ hm⟩

/-- Every frontier entry enqueued by a batch is a not-yet-visited link
of one of its successful outcomes, placed one level deeper, and only
when that outcome was below the depth limit. -/
theorem processBatch_links_mem (dl : Nat) (vis : Finset String)
    (l : List ((String × Nat) × Option (PageRecord × List String))) :
    ∀ x ∈ (processBatch dl vis l).2, ∃ e rec ls, (e, some (rec, ls)) ∈ l ∧
      x.2 = e.2 + 1 ∧ e.2 < dl ∧ x.1 ∈ ls ∧ x.1 ∉ vis := by
  induction l with
  | nil => simp [processBatch]
  | cons p rest ih =>
    match p with
    | (_, none) =>
      intro x hx
      obtain ⟨e, rec, ls, hm, h2, h3, h4, h5⟩ := ih x hx
      exact ⟨e, rec, ls, List.mem_cons_of_mem _ hm, h2, h3, h4, h5⟩
    | (e1, some (record, links)) =>
      intro x hx
      simp only [processBatch, List.mem_append] at hx
      rcases hx with hx | hx
      · by_cases hd : e1.2 < dl
        · simp only [hd, if_pos, List.mem_map, List.mem_filter] at hx
          obtain ⟨lnk, ⟨hl1, hl2⟩, rfl⟩ := hx
          exact ⟨e1, record, links, List.mem_cons_self _ _, rfl, hd, hl1,
            by simpa using hl2⟩
        · simp [hd] at hx
      · obtain ⟨e, rec, ls, hm, h2, h3, h4, h5⟩ := ih x hx
        exact ⟨e, rec, ls, List.mem_cons_of_mem _ hm, h2, h3, h4, h5⟩

/-- Depth discipline of one batch: if the dispatched outcomes are
pairwise within one depth step, so are the entries they enqueue. -/
theorem processBatch_links_pairwise (dl : Nat) (vis : Finset String)
    (l : List ((String × Nat) × Option (PageRecord × List String)))
    (h : (l.map (fun p => p.1.2)).Pairwise depthStep) :
    ((processBatch dl vis l).2.map Prod.snd).Pairwise depthStep := by
  induction l with
  | nil => simp [processBatch]
  | cons p rest ih =>
    simp only [List.map_cons, List.pairwise_cons] at h
    obtain ⟨h1, h2⟩ := h
    match p with
    | (_, none) => exact ih h2
    | (e1, some (record, links)) =>
      simp only [processBatch, List.map_append]
      by_cases hd : e1.2 < dl
      · rw [if_pos hd]
        have hconst : ∀ x ∈ ((links.filter
            (fun lk => decide (lk ∉ vis))).map
              (fun lk => (lk, e1.2 + 1))).map Prod.snd, x = e1.2 + 1 := by
          intro x hx
          simp only [List.map_map, List.mem_map] at hx
          obtain ⟨lnk, _, rfl⟩ := hx
          rfl
        rw [List.pairwise_append]
        refine ⟨List.pairwise_of_forall_mem_list (fun a ha b hb => ?_),
          ih h2, fun a ha b hb => ?_⟩
        · rw [hconst a ha, hconst b hb]
          exact ⟨le_refl _, Nat.le_succ _⟩
        · rw [hconst a ha]
          obtain ⟨x, hx, rfl⟩ := List.mem_map.mp hb
          obtain ⟨e, rec, ls, hm, heq, _, _, _⟩ :=
            processBatch_links_mem dl vis rest x hx
          have he : depthStep e1.2 e.2 :=
            h1 _ (List.mem_map.mpr ⟨_, hm, rfl⟩)
          obtain ⟨he1, he2⟩ := he
          rw [heq]
          exact ⟨by omega, by omega⟩
      · rw [if_neg hd]
        simpa using ih h2

/-- Shape of a successful concurrent fetch-and-parse outcome. -/
theorem fetchParseAsync_shape (fetch : String → Option (Nat × HtmlNode))
    (cfg : CrawlConfig) (dom : String) (u : String) (d : Nat)
    (r : PageRecord) (ls : List String)
    (h : fetchParseAsync fetch cfg dom u d = some (r, ls)) :
    r.url = u ∧ r.depth = d ∧ r.status = 200 ∧
    ∃ doc sc links, fetch u = some (200, doc) ∧
      extractContent doc = .ok sc ∧ r.content = sc ∧
      r.title = extractTitle doc ∧ extractLinks doc u = some links ∧
      filterLinks cfg dom links = some ls := by
  simp only [fetchParseAsync, Option.bind_eq_bind] at h
  rcases hf : fetch u with _ | ⟨st, doc⟩ <;> rw [hf] at h
  · simp at h
  · simp only [Option.some_bind] at h
    by_cases hst : st = 200
    · subst hst
      rw [if_neg (fun hcon => hcon rfl)] at h
      rcases hc : extractContent doc with e | sc <;> rw [hc] at h
      · simp [Except.toOption] at h
      · simp only [Except.toOption, Option.some_bind] at h
        rcases hl : extractLinks doc u with _ | links <;> rw [hl] at h
        · simp at h
        · simp only [Option.some_bind] at h
          rcases hfl : filterLinks cfg dom links with _ | fl <;>
            rw [hfl] at h
          · simp at h
          · have h' : some ((⟨u, extractTitle doc, sc, d, 200⟩ :
                PageRecord), fl) = some (r, ls) := h
            rw [Option.some.injEq, Prod.mk.injEq] at h'
            obtain ⟨hr, hls⟩ := h'
            subst hls
            rw [← hr]
            exact ⟨rfl, rfl, rfl, doc, sc, links, rfl, hc, rfl, rfl, hl,
              hfl⟩
    · rw [if_pos hst] at h
      simp at h

/-- The concurrent loop can overshoot `max_pages` by at most one batch:
its result count stays below `max_pages + batch_size` (entering with
`res`, it never exceeds `max res.length (mp - 1 + batchSize)`). -/
theorem asyncCrawlLoop_length_le (fetch : String → Option (Nat × HtmlNode))
    (cfg : CrawlConfig) (dom : String) (mp dl : Nat)
    (tv : List (String × Nat)) (vis : Finset String)
    (res : List PageRecord) :
    (asyncCrawlLoop fetch cfg dom mp dl tv vis res).1.length ≤
      max res.length (mp - 1 + cfg.batchSize) := by
  induction tv, vis, res using asyncCrawlLoop.induct fetch cfg dom mp dl with
  | case1 vis res =>
    rw [asyncCrawlLoop]
    exact le_sup_left
  | case2 tv vis res h1 h2 hbs =>
    rw [asyncCrawlLoop]
    simp only [dif_neg h1, dif_pos h2, dif_pos hbs]
    exact le_sup_left
  | case3 tv vis res h1 h2 hbs batch rest tasks vis' outcomes processed ih =>
    rw [asyncCrawlLoop]
    simp only [dif_neg h1, dif_pos h2, dif_neg hbs]
    refine le_trans ih (sup_le (le_trans ?_ le_sup_right) le_sup_right)
    have hp : processed.1.length ≤ cfg.batchSize := by
      refine le_trans (processBatch_length_le _ _ _) ?_
      simp only [outcomes, List.length_map, tasks, batch]
      exact le_trans (List.length_filter_le _ _)
        (by simpa using List.length_take_le _ _)
    simp only [List.length_append]
    omega
  | case4 tv vis res h1 h2 =>
    rw [asyncCrawlLoop]
    simp only [dif_neg h1, dif_neg h2]
    exact le_sup_left

/-- In a frontier whose depths satisfy the pairwise breadth-first
discipline, any two depths (in either order) differ by at most one. -/
theorem pairwise_depthStep_both {l : List Nat}
    (h : l.Pairwise depthStep) :
    ∀ a ∈ l, ∀ b ∈ l, a ≤ b + 1 := by
  induction l with
  | nil => simp
  | cons c rest ih =>
    rw [List.pairwise_cons] at h
    intro a ha b hb
    rcases List.mem_cons.mp ha with rfl | ha'
    · rcases List.mem_cons.mp hb with rfl | hb'
      · omega
      · exact le_trans (h.1 b hb').1 (Nat.le_succ _)
    · rcases List.mem_cons.mp hb with rfl | hb'
      · exact (h.1 a ha').2
      · exact ih h.2 a ha' b hb'

/-- The sequential loop dispatches each fetch at most once: every
dispatched URL is fresh relative to the incoming visited set, and the
dispatch trace contains no URL twice. -/
theorem syncCrawlLoop_trace_nodup (fetch : String → Option (Nat × HtmlNode))
    (cfg : CrawlConfig) (dom : String) (mp dl : Nat)
    (tv : List (String × Nat)) (vis : Finset String)
    (res : List PageRecord) :
    (∀ p ∈ (syncCrawlLoop fetch cfg dom mp dl tv vis res).2, p.1 ∉ vis) ∧
    ((syncCrawlLoop fetch cfg dom mp dl tv vis res).2.map
      Prod.fst).Nodup := by
  induction tv, vis, res using syncCrawlLoop.induct fetch cfg dom mp dl with
  | case1 vis res =>
    rw [syncCrawlLoop]
    simp
  | case2 url d rest vis res hlt hmem ih =>
    rw [syncCrawlLoop]
    simp only [dif_pos hlt, if_pos hmem]
    exact ih
  | case3 url d rest vis res hlt hmem vis' ih3 ih2 ih1 =>
    rw [syncCrawlLoop]
    simp only [dif_pos hlt, if_neg hmem]
    have build : ∀ t : List PageRecord × List (String × Nat),
        (∀ p ∈ t.2, p.1 ∉ insert url vis) →
        (t.2.map Prod.fst).Nodup →
        ((∀ p ∈ (t.1, (url, d) :: t.2).2, p.1 ∉ vis) ∧
         (((t.1, (url, d) :: t.2).2.map Prod.fst).Nodup)) := by
      intro t hfresh hnd
      constructor
      · intro p hp
        rcases List.mem_cons.mp hp with rfl | hp
        · exact hmem
        · exact fun hin => hfresh p hp (Finset.mem_insert_of_mem hin)
      · simp only [List.map_cons, List.nodup_cons]
        refine ⟨fun hin => ?_, hnd⟩
        obtain ⟨p, hp, hpu⟩ := List.mem_map.mp hin
        exact hfresh p hp (hpu ▸ Finset.mem_insert_self _ _)
    split
    · exact build _ ih3.1 ih3.2
    · split
      · split
        · exact build _ ih3.1 ih3.2
        · split
          · split
            · exact build _ (ih2 _ _ _).1 (ih2 _ _ _).2
            · split
              · exact build _ (ih2 _ _ _).1 (ih2 _ _ _).2
              · exact build _ (ih1 _ _ _ _).1 (ih1 _ _ _ _).2
          · exact build _ (ih2 _ _ _).1 (ih2 _ _ _).2
      · exact build _ ih3.1 ih3.2
  | case4 url d rest vis res hlt =>
    rw [syncCrawlLoop]
    simp only [dif_neg hlt]
    simp

/-- Depth bound of the sequential loop: with a frontier and result list
below the depth limit, every emitted record and every dispatched entry
stays below it (links found at the limit are never enqueued). -/
theorem syncCrawlLoop_depth_le (fetch : String → Option (Nat × HtmlNode))
    (cfg : CrawlConfig) (dom : String) (mp dl : Nat)
    (tv : List (String × Nat)) (vis : Finset String)
    (res : List PageRecord) (htv : ∀ e ∈ tv, e.2 ≤ dl)
    (hres : ∀ r ∈ res, r.depth ≤ dl) :
    (∀ r ∈ (syncCrawlLoop fetch cfg dom mp dl tv vis res).1,
      r.depth ≤ dl) ∧
    (∀ e ∈ (syncCrawlLoop fetch cfg dom mp dl tv vis res).2,
      e.2 ≤ dl) := by
  induction tv, vis, res using syncCrawlLoop.induct fetch cfg dom mp dl with
  | case1 vis res =>
    rw [syncCrawlLoop]
    exact ⟨hres, by simp⟩
  | case2 url d rest vis res hlt hmem ih =>
    rw [syncCrawlLoop]
    simp only [dif_pos hlt, if_pos hmem]
    exact ih (fun e he => htv e (List.mem_cons_of_mem _ he)) hres
  | case3 url d rest vis res hlt hmem vis' ih3 ih2 ih1 =>
    rw [syncCrawlLoop]
    simp only [dif_pos hlt, if_neg hmem]
    have hd0 : d ≤ dl := htv (url, d) (List.mem_cons_self _ _)
    have hrest : ∀ e ∈ rest, e.2 ≤ dl :=
      fun e he => htv e (List.mem_cons_of_mem _ he)
    have build : ∀ t : List PageRecord × List (String × Nat),
        (∀ r ∈ t.1, r.depth ≤ dl) → (∀ e ∈ t.2, e.2 ≤ dl) →
        ((∀ r ∈ (t.1, (url, d) :: t.2).1, r.depth ≤ dl) ∧
         (∀ e ∈ (t.1, (url, d) :: t.2).2, e.2 ≤ dl)) := by
      intro t h1 h2
      refine ⟨h1, fun e he => ?_⟩
      rcases List.mem_cons.mp he with rfl | he
      · exact hd0
      · exact h2 e he
    have hres2 : ∀ rec : PageRecord, rec.depth = d →
        ∀ r ∈ res ++ [rec], r.depth ≤ dl := by
      intro rec hrd r hr
      rcases List.mem_append.mp hr with hr | hr
      · exact hres r hr
      · simp only [List.mem_singleton] at hr
        subst hr
        omega
    split
    · exact build _ (ih3 hrest hres).1 (ih3 hrest hres).2
    · split
      · split
        · exact build _ (ih3 hrest hres).1 (ih3 hrest hres).2
        · split
          · next hddl =>
            split
            · exact build _ (ih2 _ _ _ hrest (hres2 _ rfl)).1
                (ih2 _ _ _ hrest (hres2 _ rfl)).2
            · split
              · exact build _ (ih2 _ _ _ hrest (hres2 _ rfl)).1
                  (ih2 _ _ _ hrest (hres2 _ rfl)).2
              · have htv' : ∀ fl : List String, ∀ e ∈ rest ++
                    (List.map (fun l => (l, d + 1))
                      (List.filter (fun l => decide (l ∉ vis')) fl)),
                    e.2 ≤ dl := by
                  intro fl e he
                  rcases List.mem_append.mp he with he | he
                  · exact hrest e he
                  · obtain ⟨lnk, _, rfl⟩ := List.mem_map.mp he
                    simp only
                    omega
                exact build _ (ih1 _ _ _ _ (htv' _) (hres2 _ rfl)).1
                  (ih1 _ _ _ _ (htv' _) (hres2 _ rfl)).2
          · exact build _ (ih2 _ _ _ hrest (hres2 _ rfl)).1
              (ih2 _ _ _ hrest (hres2 _ rfl)).2
      · exact build _ (ih3 hrest hres).1 (ih3 hrest hres).2
  | case4 url d rest vis res hlt =>
    rw [syncCrawlLoop]
    simp only [dif_neg hlt]
    exact ⟨hres, by simp⟩

/-- Depth bound of the concurrent loop (counterpart of
`syncCrawlLoop_depth_le`). -/
theorem asyncCrawlLoop_depth_le (fetch : String → Option (Nat × HtmlNode))
    (cfg : CrawlConfig) (dom : String) (mp dl : Nat)
    (tv : List (String × Nat)) (vis : Finset String)
    (res : List PageRecord) (htv : ∀ e ∈ tv, e.2 ≤ dl)
    (hres : ∀ r ∈ res, r.depth ≤ dl) :
    (∀ r ∈ (asyncCrawlLoop fetch cfg dom mp dl tv vis res).1,
      r.depth ≤ dl) ∧
    (∀ e ∈ (asyncCrawlLoop fetch cfg dom mp dl tv vis res).2,
      e.2 ≤ dl) := by
  induction tv, vis, res using asyncCrawlLoop.induct fetch cfg dom mp dl with
  | case1 vis res =>
    rw [asyncCrawlLoop]
    exact ⟨hres, by simp⟩
  | case2 tv vis res h1 h2 hbs =>
    rw [asyncCrawlLoop]
    simp only [dif_neg h1, dif_pos h2, dif_pos hbs]
    exact ⟨hres, by simp⟩
  | case3 tv vis res h1 h2 hbs batch rest tasks vis' outcomes processed ih =>
    rw [asyncCrawlLoop]
    simp only [dif_neg h1, dif_pos h2, dif_neg hbs]
    have htasks : ∀ e ∈ tasks, e.2 ≤ dl := fun e he =>
      htv e (List.take_subset _ _ (List.mem_of_mem_filter he))
    have hprec : ∀ r ∈ processed.1, r.depth ≤ dl := by
      intro r hr
      obtain ⟨e, ls, hm⟩ := processBatch_records_mem dl vis' outcomes r hr
      simp only [outcomes, List.mem_map] at hm
      obtain ⟨e', he', heq⟩ := hm
      obtain ⟨rfl, hfp⟩ := Prod.mk.injEq .. ▸ heq
      have hsh := fetchParseAsync_shape fetch cfg dom e'.1 e'.2 r ls hfp
      rw [hsh.2.1]
      exact htasks e' he'
    have hplinks : ∀ x ∈ processed.2, x.2 ≤ dl := by
      intro x hx
      obtain ⟨e, rec, ls, hm, h2x, h3x, _, _⟩ :=
        processBatch_links_mem dl vis' outcomes x hx
      omega
    obtain ⟨ihr, iht⟩ := ih
      (fun e he => by
        rcases List.mem_append.mp he with he | he
        · exact htv e (List.drop_subset _ _ he)
        · exact hplinks e he)
      (fun r hr => by
        rcases List.mem_append.mp hr with hr | hr
        · exact hres r hr
        · exact hprec r hr)
    refine ⟨ihr, fun e he => ?_⟩
    rcases List.mem_append.mp he with he | he
    · exact htasks e he
    · exact iht e he
  | case4 tv vis res h1 h2 =>
    rw [asyncCrawlLoop]
    simp only [dif_neg h1, dif_neg h2]
    exact ⟨hres, by simp⟩

/-- BFS ordering of the sequential loop: from a frontier whose depths
satisfy the breadth-first discipline, the dispatch trace has
non-decreasing depths (and every dispatched depth dominates any lower
bound of the incoming frontier). -/
theorem syncCrawlLoop_bfs (fetch : String → Option (Nat × HtmlNode))
    (cfg : CrawlConfig) (dom : String) (mp dl : Nat)
    (tv : List (String × Nat)) (vis : Finset String)
    (res : List PageRecord)
    (h : (tv.map Prod.snd).Pairwise depthStep) :
    (((syncCrawlLoop fetch cfg dom mp dl tv vis res).2.map
      Prod.snd).Pairwise (· ≤ ·)) ∧
    (∀ x ∈ (syncCrawlLoop fetch cfg dom mp dl tv vis res).2.map Prod.snd,
      ∀ lb : Nat, (∀ y ∈ tv.map Prod.snd, lb ≤ y) → lb ≤ x) := by
  induction tv, vis, res using syncCrawlLoop.induct fetch cfg dom mp dl with
  | case1 vis res =>
    rw [syncCrawlLoop]
    simp
  | case2 url d rest vis res hlt hmem ih =>
    rw [syncCrawlLoop]
    simp only [dif_pos hlt, if_pos hmem]
    simp only [List.map_cons, List.pairwise_cons] at h
    obtain ⟨s1, s2⟩ := ih h.2
    exact ⟨s1, fun x hx lb hlb =>
      s2 x hx lb (fun y hy => hlb y (List.mem_cons_of_mem _ hy))⟩
  | case3 url d rest vis res hlt hmem vis' ih3 ih2 ih1 =>
    rw [syncCrawlLoop]
    simp only [dif_pos hlt, if_neg hmem]
    simp only [List.map_cons, List.pairwise_cons] at h
    obtain ⟨hd1, htl⟩ := h
    have hstep : ∀ (frontier : List (String × Nat))
        (t : List PageRecord × List (String × Nat)),
        (∀ y ∈ frontier.map Prod.snd, d ≤ y) →
        (∀ y ∈ frontier.map Prod.snd, ∀ lb : Nat,
          (∀ z ∈ (((url, d) :: rest).map Prod.snd), lb ≤ z) → lb ≤ y) →
        ((t.2.map Prod.snd).Pairwise (· ≤ ·) ∧
          (∀ x ∈ t.2.map Prod.snd, ∀ lb : Nat,
            (∀ y ∈ frontier.map Prod.snd, lb ≤ y) → lb ≤ x)) →
        (((((t.1, (url, d) :: t.2) :
            List PageRecord × List (String × Nat)).2.map
          Prod.snd).Pairwise (· ≤ ·)) ∧
         (∀ x ∈ ((t.1, (url, d) :: t.2) :
            List PageRecord × List (String × Nat)).2.map Prod.snd,
          ∀ lb : Nat, (∀ y ∈ (((url, d) :: rest).map Prod.snd), lb ≤ y) →
            lb ≤ x)) := by
      intro frontier t hlow htrans ⟨ts, tlb⟩
      constructor
      · simp only [List.map_cons]
        exact List.Pairwise.cons (fun x hx => tlb x hx d hlow) ts
      · intro x hx lb hlb
        simp only [List.map_cons, List.mem_cons] at hx
        rcases hx with rfl | hx
        · exact hlb x (by simp)
        · exact tlb x hx lb (fun y hy => htrans y hy lb hlb)
    have hrest_low : ∀ y ∈ rest.map Prod.snd, d ≤ y :=
      fun y hy => (hd1 y hy).1
    have hrest_trans : ∀ y ∈ rest.map Prod.snd, ∀ lb : Nat,
        (∀ z ∈ (((url, d) :: rest).map Prod.snd), lb ≤ z) → lb ≤ y :=
      fun y hy lb hlb => hlb y (by simp [hy])
    split
    · exact hstep _ _ hrest_low hrest_trans (ih3 htl)
    · split
      · split
        · exact hstep _ _ hrest_low hrest_trans (ih3 htl)
        · split
          · next hddl =>
            split
            · exact hstep _ _ hrest_low hrest_trans (ih2 _ _ _ htl)
            · split
              · exact hstep _ _ hrest_low hrest_trans (ih2 _ _ _ htl)
              · next fl hfl =>
                have hnew : ∀ y ∈ (rest ++ List.map (fun l => (l, d + 1))
                    (List.filter (fun l => decide (l ∉ vis')) fl)).map
                      Prod.snd, d ≤ y := by
                  intro y hy
                  simp only [List.map_append, List.mem_append] at hy
                  rcases hy with hy | hy
                  · exact hrest_low y hy
                  · obtain ⟨-, hy2⟩ := (by simpa using hy :
                      (∃ x ∈ fl, x ∉ vis') ∧ d + 1 = y)
                    omega
                have hpair' : ((rest ++ List.map (fun l => (l, d + 1))
                    (List.filter (fun l => decide (l ∉ vis')) fl)).map
                      Prod.snd).Pairwise depthStep := by
                  simp only [List.map_append]
                  rw [List.pairwise_append]
                  refine ⟨htl, ?_, ?_⟩
                  · refine List.pairwise_of_forall_mem_list
                      (fun a ha b hb => ?_)
                    obtain ⟨-, ha2⟩ := (by simpa using ha :
                      (∃ x ∈ fl, x ∉ vis') ∧ d + 1 = a)
                    obtain ⟨-, hb2⟩ := (by simpa using hb :
                      (∃ x ∈ fl, x ∉ vis') ∧ d + 1 = b)
                    rw [← ha2, ← hb2]
                    exact ⟨le_refl _, Nat.le_succ _⟩
                  · intro a ha b hb
                    obtain ⟨-, hb2⟩ := (by simpa using hb :
                      (∃ x ∈ fl, x ∉ vis') ∧ d + 1 = b)
                    have h1 := (hd1 a ha).1
                    have h2 := (hd1 a ha).2
                    constructor <;> omega
                refine hstep _ _ hnew (fun y hy lb hlb => ?_)
                  (ih1 _ _ _ _ hpair')
                simp only [List.map_append, List.mem_append] at hy
                rcases hy with hy | hy
                · exact hlb y (by simp [hy])
                · obtain ⟨-, hy2⟩ := (by simpa using hy :
                    (∃ x ∈ fl, x ∉ vis') ∧ d + 1 = y)
                  have hlbd : lb ≤ d := hlb d (by simp)
                  omega
          · exact hstep _ _ hrest_low hrest_trans (ih2 _ _ _ htl)
      · exact hstep _ _ hrest_low hrest_trans (ih3 htl)
  | case4 url d rest vis res hlt =>
    rw [syncCrawlLoop]
    simp only [dif_neg hlt]
    simp

/-- BFS ordering of the concurrent loop: the dispatch trace
(batches in order, task order within a batch) has non-decreasing
depths. -/
theorem asyncCrawlLoop_bfs (fetch : String → Option (Nat × HtmlNode))
    (cfg : CrawlConfig) (dom : String) (mp dl : Nat)
    (tv : List (String × Nat)) (vis : Finset String)
    (res : List PageRecord)
    (h : (tv.map Prod.snd).Pairwise depthStep) :
    (((asyncCrawlLoop fetch cfg dom mp dl tv vis res).2.map
      Prod.snd).Pairwise (· ≤ ·)) ∧
    (∀ x ∈ (asyncCrawlLoop fetch cfg dom mp dl tv vis res).2.map
      Prod.snd, ∀ lb : Nat, (∀ y ∈ tv.map Prod.snd, lb ≤ y) →
      lb ≤ x) := by
  induction tv, vis, res using asyncCrawlLoop.induct fetch cfg dom mp dl with
  | case1 vis res =>
    rw [asyncCrawlLoop]
    simp
  | case2 tv vis res h1 h2 hbs =>
    rw [asyncCrawlLoop]
    simp only [dif_neg h1, dif_pos h2, dif_pos hbs]
    simp
  | case3 tv vis res h1 h2 hbs batch rest tasks vis' outcomes processed ih =>
    rw [asyncCrawlLoop]
    simp only [dif_neg h1, dif_pos h2, dif_neg hbs]
    have hsplitv : (batch.map Prod.snd ++ rest.map Prod.snd) =
        tv.map Prod.snd := by
      simp only [batch, rest, ← List.map_append, List.take_append_drop]
    have happ : ((batch.map Prod.snd ++ rest.map Prod.snd)).Pairwise
        depthStep := by rw [hsplitv]; exact h
    obtain ⟨hbD, hrD, hcross⟩ := List.pairwise_append.mp happ
    have hsub : (tasks.map Prod.snd).Sublist (batch.map Prod.snd) :=
      List.Sublist.map _ (List.filter_sublist _)
    have htaskD : (tasks.map Prod.snd).Pairwise depthStep :=
      hbD.sublist hsub
    have hkeys : outcomes.map (fun p => p.1.2) = tasks.map Prod.snd := by
      simp [outcomes, List.map_map, Function.comp]
    have hpD : ((processed.2.map Prod.snd)).Pairwise depthStep := by
      have := processBatch_links_pairwise dl vis' outcomes
        (by rw [hkeys]; exact htaskD)
      exact this
    have hplink : ∀ b ∈ processed.2.map Prod.snd,
        ∃ e ∈ tasks.map Prod.snd, b = e + 1 := by
      intro b hb
      obtain ⟨x, hx, rfl⟩ := List.mem_map.mp hb
      obtain ⟨e, rec, ls, hm, h2x, _, _, _⟩ :=
        processBatch_links_mem dl vis' outcomes x hx
      simp only [outcomes, List.mem_map] at hm
      obtain ⟨e', he', heq⟩ := hm
      have he1 : e' = e := congrArg Prod.fst heq
      exact ⟨e'.2, List.mem_map.mpr ⟨e', he', rfl⟩, by rw [h2x, he1]⟩
    have htvmem : ∀ y ∈ batch.map Prod.snd, y ∈ tv.map Prod.snd :=
      fun y hy => hsplitv ▸ List.mem_append.mpr (Or.inl hy)
    have hrvmem : ∀ y ∈ rest.map Prod.snd, y ∈ tv.map Prod.snd :=
      fun y hy => hsplitv ▸ List.mem_append.mpr (Or.inr hy)
    have hpair' : (((rest ++ processed.2).map Prod.snd)).Pairwise
        depthStep := by
      rw [List.map_append, List.pairwise_append]
      refine ⟨hrD, hpD, fun a ha b hb => ?_⟩
      obtain ⟨e, he, rfl⟩ := hplink b hb
      constructor
      · exact pairwise_depthStep_both h a (hrvmem a ha) e
          (htvmem e (hsub.subset he))
      · have := (hcross e (hsub.subset he) a ha).1
        omega
    obtain ⟨tailSorted, tailLB⟩ := ih hpair'
    constructor
    · simp only [List.map_append]
      rw [List.pairwise_append]
      refine ⟨htaskD.imp (fun hab => hab.1), tailSorted,
        fun t ht x hx => ?_⟩
      refine tailLB x hx t (fun y hy => ?_)
      rw [List.map_append] at hy
      rcases List.mem_append.mp hy with hy | hy
      · exact (hcross t (hsub.subset ht) y hy).1
      · obtain ⟨e, he, rfl⟩ := hplink y hy
        exact pairwise_depthStep_both hbD t (hsub.subset ht) e
          (hsub.subset he)
    · intro x hx lb hlb
      simp only [List.map_append, List.mem_append] at hx
      rcases hx with hx | hx
      · exact hlb x (htvmem x (hsub.subset hx))
      · refine tailLB x hx lb (fun y hy => ?_)
        rw [List.map_append] at hy
        rcases List.mem_append.mp hy with hy | hy
        · exact hlb y (hrvmem y hy)
        · obtain ⟨e, he, rfl⟩ := hplink y hy
          have : lb ≤ e := hlb e (htvmem e (hsub.subset he))
          omega
  | case4 tv vis res h1 h2 =>
    rw [asyncCrawlLoop]
    simp only [dif_neg h1, dif_neg h2]
    simp

/-- Provenance of sequential results: every emitted record (beyond the
incoming accumulator) comes from a fetch that passed the status check
and a successful content extraction.  In particular a page whose
extraction raises produces no record. -/
theorem syncCrawlLoop_provenance (fetch : String → Option (Nat × HtmlNode))
    (cfg : CrawlConfig) (dom : String) (mp dl : Nat)
    (tv : List (String × Nat)) (vis : Finset String)
    (res : List PageRecord) :
    ∀ r ∈ (syncCrawlLoop fetch cfg dom mp dl tv vis res).1,
      r ∈ res ∨ ∃ st doc sc, fetch r.url = some (st, doc) ∧
        statusOk st = true ∧ extractContent doc = Except.ok sc ∧
        r.content = sc := by
  induction tv, vis, res using syncCrawlLoop.induct fetch cfg dom mp dl with
  | case1 vis res =>
    rw [syncCrawlLoop]
    exact fun r hr => Or.inl hr
  | case2 url d rest vis res hlt hmem ih =>
    rw [syncCrawlLoop]
    simp only [dif_pos hlt, if_pos hmem]
    exact ih
  | case3 url d rest vis res hlt hmem vis' ih3 ih2 ih1 =>
    rw [syncCrawlLoop]
    simp only [dif_pos hlt, if_neg hmem]
    have lift : ∀ (rec : PageRecord) (l : List PageRecord),
        (∃ st doc sc, fetch rec.url = some (st, doc) ∧
          statusOk st = true ∧ extractContent doc = Except.ok sc ∧
          rec.content = sc) →
        (∀ r ∈ l, r ∈ res ++ [rec] ∨ ∃ st doc sc,
          fetch r.url = some (st, doc) ∧ statusOk st = true ∧
          extractContent doc = Except.ok sc ∧ r.content = sc) →
        (∀ r ∈ l, r ∈ res ∨ ∃ st doc sc,
          fetch r.url = some (st, doc) ∧ statusOk st = true ∧
          extractContent doc = Except.ok sc ∧ r.content = sc) := by
      intro rec l hP hl r hr
      rcases hl r hr with hr' | hr'
      · rcases List.mem_append.mp hr' with hh | hh
        · exact Or.inl hh
        · simp only [List.mem_singleton] at hh
          subst hh
          exact Or.inr hP
      · exact Or.inr hr'
    split
    · exact ih3
    · next st doc heqf =>
      split
      · next hst =>
        split
        · exact ih3
        · next sc heqc =>
          split
          · split
            · exact lift _ _ ⟨st, doc, sc, heqf, hst, heqc, rfl⟩
                (ih2 _ _ _)
            · split
              · exact lift _ _ ⟨st, doc, sc, heqf, hst, heqc, rfl⟩
                  (ih2 _ _ _)
              · exact lift _ _ ⟨st, doc, sc, heqf, hst, heqc, rfl⟩
                  (ih1 _ _ _ _)
          · exact lift _ _ ⟨st, doc, sc, heqf, hst, heqc, rfl⟩
              (ih2 _ _ _)
      · exact ih3
  | case4 url d rest vis res hlt =>
    rw [syncCrawlLoop]
    simp only [dif_neg hlt]
    exact fun r hr => Or.inl hr

/-- Provenance of concurrent results: every emitted record comes from a
status-200 fetch and a successful extraction (the concurrent
`_fetch_and_parse` returns `None` otherwise). -/
theorem asyncCrawlLoop_provenance (fetch : String → Option (Nat × HtmlNode))
    (cfg : CrawlConfig) (dom : String) (mp dl : Nat)
    (tv : List (String × Nat)) (vis : Finset String)
    (res : List PageRecord) :
    ∀ r ∈ (asyncCrawlLoop fetch cfg dom mp dl tv vis res).1,
      r ∈ res ∨ ∃ doc sc, fetch r.url = some (200, doc) ∧
        extractContent doc = Except.ok sc ∧ r.content = sc := by
  induction tv, vis, res using asyncCrawlLoop.induct fetch cfg dom mp dl with
  | case1 vis res =>
    rw [asyncCrawlLoop]
    exact fun r hr => Or.inl hr
  | case2 tv vis res h1 h2 hbs =>
    rw [asyncCrawlLoop]
    simp only [dif_neg h1, dif_pos h2, dif_pos hbs]
    exact fun r hr => Or.inl hr
  | case3 tv vis res h1 h2 hbs batch rest tasks vis' outcomes processed ih =>
    rw [asyncCrawlLoop]
    simp only [dif_neg h1, dif_pos h2, dif_neg hbs]
    intro r hr
    rcases ih r hr with hr' | hr'
    · rcases List.mem_append.mp hr' with hh | hh
      · exact Or.inl hh
      · obtain ⟨e, ls, hm⟩ := processBatch_records_mem dl vis' outcomes r hh
        simp only [outcomes, List.mem_map] at hm
        obtain ⟨e', _, heq⟩ := hm
        have hfp : fetchParseAsync fetch cfg dom e'.1 e'.2 =
            some (r, ls) := congrArg Prod.snd heq
        obtain ⟨hu, _, _, doc, sc, links, hfe, hce, hco, _, _, _⟩ :=
          fetchParseAsync_shape fetch cfg dom e'.1 e'.2 r ls hfp
        exact Or.inr ⟨doc, sc, by rw [hu]; exact hfe, hce, hco⟩
    · exact Or.inr hr'
  | case4 tv vis res h1 h2 =>
    rw [asyncCrawlLoop]
    simp only [dif_neg h1, dif_neg h2]
    exact fun r hr => Or.inl hr

/-! ## Concrete runs of the crawl loops on the site -/

/-- Concurrent fetch-and-parse of the site root. -/
theorem siteFPRoot : fetchParseAsync siteFetch {} "h" "http://h/" 0 =
    some (siteRecord "http://h/" 0, ["http://h/a", "http://h/b"]) := by
  decide

/-- Concurrent fetch-and-parse of page `a`. -/
theorem siteFPA : fetchParseAsync siteFetch {} "h" "http://h/a" 1 =
    some (siteRecord "http://h/a" 1, ["http://h/d"]) := by decide

/-- Concurrent fetch-and-parse of page `b`. -/
theorem siteFPB : fetchParseAsync siteFetch {} "h" "http://h/b" 1 =
    some (siteRecord "http://h/b" 1, ["http://h/d"]) := by decide

/-- Concurrent fetch-and-parse of leaf `d`. -/
theorem siteFPD : fetchParseAsync siteFetch {} "h" "http://h/d" 2 =
    some (siteRecord "http://h/d" 2, []) := by decide

/-- Content extraction values of the site's pages. -/
theorem siteContentRoot :
    extractContent (pageWith ["/a", "/b"]) = .ok emptyContent := by decide

/-- Content extraction of the one-link page. -/
theorem siteContentA :
    extractContent (pageWith ["/d"]) = .ok emptyContent := by decide

/-- Content extraction of the leaf page. -/
theorem siteContentLeaf :
    extractContent (pageWith []) = .ok emptyContent := by decide

/-- Title of every site page. -/
theorem siteTitleRoot :
    extractTitle (pageWith ["/a", "/b"]) = "Untitled Page" := by decide

/-- Title of the one-link page. -/
theorem siteTitleA :
    extractTitle (pageWith ["/d"]) = "Untitled Page" := by decide

/-- Title of the leaf page. -/
theorem siteTitleLeaf :
    extractTitle (pageWith []) = "Untitled Page" := by decide

/-- Links of the root page. -/
theorem siteLinksRoot : extractLinks (pageWith ["/a", "/b"]) "http://h/" =
    some ["http://h/a", "http://h/b"] := by decide

/-- Links of page `a`. -/
theorem siteLinksA : extractLinks (pageWith ["/d"]) "http://h/a" =
    some ["http://h/d"] := by decide

/-- Links of page `b`. -/
theorem siteLinksB : extractLinks (pageWith ["/d"]) "http://h/b" =
    some ["http://h/d"] := by decide

/-- Links of the leaf page. -/
theorem siteLinksLeaf : extractLinks (pageWith []) "http://h/d" =
    some [] := by decide

/-- Filtering of the root page's links. -/
theorem siteFilter2 : filterLinks {} "h" ["http://h/a", "http://h/b"] =
    some ["http://h/a", "http://h/b"] := by decide

/-- Filtering of one deep link. -/
theorem siteFilterD : filterLinks {} "h" ["http://h/d"] =
    some ["http://h/d"] := by decide

/-- Filtering of no links. -/
theorem siteFilterNil : filterLinks {} "h" ([] : List String) =
    some [] := by decide

/-- Filtering of the root links under the sequential configuration. -/
theorem siteFilter2S : filterLinks { asyncCrawling := false } "h"
    ["http://h/a", "http://h/b"] =
    some ["http://h/a", "http://h/b"] := by decide

/-- Filtering of one deep link under the sequential configuration. -/
theorem siteFilterDS : filterLinks { asyncCrawling := false } "h"
    ["http://h/d"] = some ["http://h/d"] := by decide

/-- Filtering of no links under the sequential configuration. -/
theorem siteFilterNilS : filterLinks { asyncCrawling := false } "h"
    ([] : List String) = some [] := by decide

set_option maxHeartbeats 2000000 in
/-- Concurrent run of the site with `max_pages = 2`: the final batch
overshoots the limit and three records are emitted. -/
theorem siteAsyncRun2 :
    asyncCrawlLoop siteFetch {} "h" 2 2 [("http://h/", 0)] ∅ [] =
      ([siteRecord "http://h/" 0, siteRecord "http://h/a" 1,
        siteRecord "http://h/b" 1],
       [("http://h/", 0), ("http://h/a", 1), ("http://h/b", 1)]) := by
  simp [asyncCrawlLoop, siteFetch, processBatch, siteFPRoot, siteFPA,
    siteFPB, siteFPD, List.filter, List.map, Finset.mem_insert,
    Finset.mem_singleton]
  decide

set_option maxHeartbeats 2000000 in
/-- Sequential run of the site with `max_pages = 2`: exactly two
records. -/
theorem siteSyncRun2 :
    syncCrawlLoop siteFetch { asyncCrawling := false } "h" 2 2
      [("http://h/", 0)] ∅ [] =
      ([siteRecord "http://h/" 0, siteRecord "http://h/a" 1],
       [("http://h/", 0), ("http://h/a", 1)]) := by
  simp [syncCrawlLoop, siteFetch, statusOk, siteContentRoot, siteContentA,
    siteContentLeaf, siteTitleRoot, siteTitleA, siteTitleLeaf,
    siteLinksRoot, siteLinksA, siteLinksB, siteLinksLeaf, siteFilter2S,
    siteFilterDS, siteFilterNilS, siteRecord, List.filter, List.map,
    Finset.mem_insert, Finset.mem_singleton]
  try decide

set_option maxHeartbeats 4000000 in
/-- Concurrent run of the site with `max_pages = 9`: the URL
`http://h/d` is enqueued twice (once from `a`, once from `b`), both
copies land in the same batch, and it is fetched twice. -/
theorem siteAsyncRun9 :
    asyncCrawlLoop siteFetch {} "h" 9 2 [("http://h/", 0)] ∅ [] =
      ([siteRecord "http://h/" 0, siteRecord "http://h/a" 1,
        siteRecord "http://h/b" 1, siteRecord "http://h/d" 2,
        siteRecord "http://h/d" 2],
       [("http://h/", 0), ("http://h/a", 1), ("http://h/b", 1),
        ("http://h/d", 2), ("http://h/d", 2)]) := by
  simp [asyncCrawlLoop, siteFetch, processBatch, siteFPRoot, siteFPA,
    siteFPB, siteFPD, List.filter, List.map, Finset.mem_insert,
    Finset.mem_singleton, Finset.mem_union, List.mem_toFinset]
  decide

/-- Case analysis of a successful `crawl` call: the seed URL parsed
with a scheme and a host, and the result is the run of the loop
selected by `async_crawling` from the seeded frontier. -/
theorem crawl_ok_elim (fetch : String → Option (Nat × HtmlNode))
    (cfg : CrawlConfig) (s : String) (mp dl : Nat)
    (out : List PageRecord × List (String × Nat))
    (h : crawl fetch cfg s mp dl = .ok out) :
    ∃ p, urlparseS s = some p ∧ ¬(p.scheme = [] ∨ p.netloc = []) ∧
      ((cfg.asyncCrawling = true ∧
        out = asyncCrawlLoop fetch cfg ⟨p.netloc⟩ mp dl [(s, 0)] ∅ []) ∨
       (cfg.asyncCrawling = false ∧
        out = syncCrawlLoop fetch cfg ⟨p.netloc⟩ mp dl [(s, 0)] ∅ [])) := by
  unfold crawl at h
  rcases hp : urlparseS s with _ | p <;> rw [hp] at h
  · exact absurd h (by simp)
  · replace h : (if p.scheme = [] ∨ p.netloc = []
        then (Except.error (CrawlError.invalidSeed s) :
          Except CrawlError (List PageRecord × List (String × Nat)))
        else if cfg.asyncCrawling = true
          then Except.ok (asyncCrawlLoop fetch cfg ⟨p.netloc⟩ mp dl
            [(s, 0)] ∅ [])
          else Except.ok (syncCrawlLoop fetch cfg ⟨p.netloc⟩ mp dl
            [(s, 0)] ∅ [])) = Except.ok out := h
    refine ⟨p, rfl, ?_, ?_⟩
    · intro hv
      rw [if_pos hv] at h
      exact absurd h (by simp)
    · by_cases hv : p.scheme = [] ∨ p.netloc = []
      · rw [if_pos hv] at h
        exact absurd h (by simp)
      · rw [if_neg hv] at h
        by_cases hmode : cfg.asyncCrawling = true
        · rw [if_pos hmode] at h
          injection h with h'
          exact Or.inl ⟨hmode, h'.symm⟩
        · rw [if_neg hmode] at h
          injection h with h'
          exact Or.inr ⟨by simpa using hmode, h'.symm⟩

/-! ## Claim theorems -/

/-- **C2 (counterexample).** In concurrent mode with the default batch
size, a crawl of the site with `maxPages = 2` returns three records:
`len(results) ≤ maxPages` is violated. -/
theorem async_overshoots_max_pages :
    (crawl siteFetch {} "http://h/" 2 2).map (fun o => o.1.length) =
      .ok 3 ∧ ¬ (3 ≤ 2) := by
  constructor
  · rw [show crawl siteFetch {} "http://h/" 2 2 =
      .ok (asyncCrawlLoop siteFetch {} "h" 2 2 [("http://h/", 0)] ∅ [])
      from rfl, siteAsyncRun2]
    rfl
  · decide

/-- **C2 (amended).** The result-count bound holds as stated in
sequential mode; in concurrent mode the returned list is bounded by
`maxPages - 1 + batchSize` instead (the final batch is appended in
full without re-checking `maxPages`). -/
theorem crawl_results_length_bound (fetch : String → Option (Nat × HtmlNode))
    (cfg : CrawlConfig) (s : String) (mp dl : Nat)
    (out : List PageRecord × List (String × Nat))
    (h : crawl fetch cfg s mp dl = .ok out) :
    (cfg.asyncCrawling = false → out.1.length ≤ mp) ∧
    (cfg.asyncCrawling = true → out.1.length ≤ mp - 1 + cfg.batchSize) := by
  obtain ⟨p, hp, hv, hmode⟩ := crawl_ok_elim fetch cfg s mp dl out h
  rcases hmode with ⟨hm, rfl⟩ | ⟨hm, rfl⟩
  · refine ⟨fun hcon => absurd (hm.symm.trans hcon) (by simp),
      fun _ => ?_⟩
    have := asyncCrawlLoop_length_le fetch cfg ⟨p.netloc⟩ mp dl
      [(s, 0)] ∅ []
    simpa using this
  · refine ⟨fun _ => ?_, fun hcon => absurd (hm.symm.trans hcon) (by simp)⟩
    exact syncCrawlLoop_length_le fetch cfg ⟨p.netloc⟩ mp dl [(s, 0)] ∅ []
      (by simp)

/-- Witness for C2 (amended) on the concrete site. -/
theorem crawl_results_length_bound_witness :
    ((({} : CrawlConfig).asyncCrawling = false →
      (asyncCrawlLoop siteFetch {} "h" 2 2
        [("http://h/", 0)] ∅ []).1.length ≤ 2) ∧
     (({} : CrawlConfig).asyncCrawling = true →
      (asyncCrawlLoop siteFetch {} "h" 2 2
        [("http://h/", 0)] ∅ []).1.length ≤
          2 - 1 + ({} : CrawlConfig).batchSize)) :=
  crawl_results_length_bound siteFetch {} "http://h/" 2 2 _ rfl

/-- **C3 (counterexample).** In concurrent mode, `http://h/d` is
discovered by both `a` and `b` inside one batch, enqueued twice, and
then fetched twice in the next batch: its URL occurs twice in the
dispatch trace. -/
theorem async_duplicate_fetch :
    (crawl siteFetch {} "http://h/" 9 2).map
      (fun o => (o.2.map Prod.fst).count "http://h/d") = .ok 2 ∧
    (2 : Nat) ≠ 1 := by
  constructor
  · rw [show crawl siteFetch {} "http://h/" 9 2 =
      .ok (asyncCrawlLoop siteFetch {} "h" 9 2 [("http://h/", 0)] ∅ [])
      from rfl, siteAsyncRun9]
    rfl
  · decide

/-- **C3 (amended).** In sequential mode no URL is ever fetched twice
in one crawl session: the dispatch trace of a sequential `crawl` has
pairwise distinct URLs (in concurrent mode a URL enqueued twice can be
fetched twice within one batch, because the task list is built against
the visited set *before* the batch is marked visited). -/
theorem sync_crawl_no_repeat_fetch (fetch : String → Option (Nat × HtmlNode))
    (cfg : CrawlConfig) (s : String) (mp dl : Nat)
    (out : List PageRecord × List (String × Nat))
    (hmode : cfg.asyncCrawling = false)
    (h : crawl fetch cfg s mp dl = .ok out) :
    (out.2.map Prod.fst).Nodup := by
  obtain ⟨p, hp, hv, hm⟩ := crawl_ok_elim fetch cfg s mp dl out h
  rcases hm with ⟨hm', rfl⟩ | ⟨hm', rfl⟩
  · exact absurd (hmode.symm.trans hm') (by simp)
  · exact (syncCrawlLoop_trace_nodup fetch cfg ⟨p.netloc⟩ mp dl
      [(s, 0)] ∅ []).2

/-- Witness for C3 (amended) on the concrete site. -/
theorem sync_crawl_no_repeat_fetch_witness :
    ((syncCrawlLoop siteFetch { asyncCrawling := false } "h" 2 2
      [("http://h/", 0)] ∅ []).2.map Prod.fst).Nodup :=
  sync_crawl_no_repeat_fetch siteFetch { asyncCrawling := false }
    "http://h/" 2 2 _ rfl rfl

/-- **C4.** For every crawl (in both modes) with `maxDepth = dl`, every
emitted record has depth at most `dl`, and no frontier entry beyond
depth `dl` is ever dispatched — links discovered at the depth limit are
not enqueued. -/
theorem crawl_depth_le (fetch : String → Option (Nat × HtmlNode))
    (cfg : CrawlConfig) (s : String) (mp dl : Nat)
    (out : List PageRecord × List (String × Nat))
    (h : crawl fetch cfg s mp dl = .ok out) :
    (∀ r ∈ out.1, r.depth ≤ dl) ∧ (∀ e ∈ out.2, e.2 ≤ dl) := by
  obtain ⟨p, hp, hv, hm⟩ := crawl_ok_elim fetch cfg s mp dl out h
  rcases hm with ⟨hm', rfl⟩ | ⟨hm', rfl⟩
  · exact asyncCrawlLoop_depth_le fetch cfg ⟨p.netloc⟩ mp dl [(s, 0)]
      ∅ [] (by simp) (by simp)
  · exact syncCrawlLoop_depth_le fetch cfg ⟨p.netloc⟩ mp dl [(s, 0)]
      ∅ [] (by simp) (by simp)

/-- Witness for C4 on the concrete site (`maxDepth = 2`). -/
theorem crawl_depth_le_witness :
    (∀ r ∈ (asyncCrawlLoop siteFetch {} "h" 9 2
      [("http://h/", 0)] ∅ []).1, r.depth ≤ 2) ∧
    (∀ e ∈ (asyncCrawlLoop siteFetch {} "h" 9 2
      [("http://h/", 0)] ∅ []).2, e.2 ≤ 2) :=
  crawl_depth_le siteFetch {} "http://h/" 9 2 _ rfl

/-- **C5.** For every start URL whose parsed form lacks a scheme or
lacks a host, `crawl` fails with the invalid-seed-URL error before
performing any fetch (the outcome is this error for *every* fetch
oracle, and carries no page records); for every start URL having both
scheme and host, this error is not raised. -/
theorem seed_validation (startUrl : String) (p : UrlParts)
    (hp : urlparseS startUrl = some p) :
    ((p.scheme = [] ∨ p.netloc = []) →
      ∀ fetch cfg maxPages depthLimit,
        crawl fetch cfg startUrl maxPages depthLimit =
          .error (.invalidSeed startUrl)) ∧
    (p.scheme ≠ [] → p.netloc ≠ [] →
      ∀ fetch cfg maxPages depthLimit,
        crawl fetch cfg startUrl maxPages depthLimit ≠
          .error (.invalidSeed startUrl)) := by
  constructor
  · intro hbad fetch cfg mp dl
    simp only [crawl, hp]
    rw [if_pos hbad]
  · intro hs hn fetch cfg mp dl
    simp only [crawl, hp]
    rw [if_neg (by simp [hs, hn])]
    split <;> simp

/-- Witness for C5 at two concrete seeds. -/
theorem seed_validation_witness :
    crawl (fun _ => none) {} "nohost" 3 2 =
      .error (.invalidSeed "nohost") ∧
    crawl (fun _ => none) {} "http://h/x" 3 2 ≠
      .error (.invalidSeed "http://h/x") :=
  ⟨(seed_validation "nohost" ⟨[], [], "nohost".data, [], [], []⟩
      (by decide)).1 (by decide) _ _ 3 2,
   (seed_validation "http://h/x"
      ⟨"http".data, "h".data, "/x".data, [], [], []⟩ (by decide)).2
      (by decide) (by decide) _ _ 3 2⟩

/-- **C10.** For every HTML document and base URL, a successful link
extraction returns a list without duplicates (each normalized URL at
most once; the `list(set(...))` step deduplicates, at the price of the
document order). -/
theorem extract_links_nodup (doc : HtmlNode) (base : String)
    (links : List String) (h : extractLinks doc base = some links) :
    links.Nodup := by
  simp only [extractLinks, Option.bind_eq_bind] at h
  rcases hm : List.mapM (fun h => normalizeLink base h)
      ((List.filterMap
        (fun n => match n with
          | .elem t _ _ (some h) _ => if t = "a" then some h else none
          | _ => none) (strictDesc doc)).filter
        (fun h => !(leadsWith "#".data h.data ||
          leadsWith "javascript:".data h.data ||
          leadsWith "mailto:".data h.data))) with _ | normed
  · rw [hm] at h
    simp at h
  · rw [hm] at h
    have h2 : normed.dedup = links := by simpa using h
    rw [← h2]
    exact List.nodup_dedup normed

/-- Witness for C10: a document with two anchors resolving to the same
canonical URL. -/
theorem extract_links_nodup_witness :
    extractLinks (pageWith ["/a", "a"]) "http://h/" =
      some ["http://h/a"] ∧
    List.Nodup ["http://h/a"] :=
  ⟨by decide,
   extract_links_nodup (pageWith ["/a", "a"]) "http://h/" _ (by decide)⟩

/-- One sequential step on an already-visited head: pop silently. -/
theorem syncStep_visited (fetch : String → Option (Nat × HtmlNode))
    (cfg : CrawlConfig) (dom : String) (mp dl : Nat) (url : String)
    (d : Nat) (rest : List (String × Nat)) (vis : Finset String)
    (res : List PageRecord) (hlt : res.length < mp) (hmem : url ∈ vis) :
    syncCrawlLoop fetch cfg dom mp dl ((url, d) :: rest) vis res =
      syncCrawlLoop fetch cfg dom mp dl rest vis res := by
  rw [syncCrawlLoop]
  simp [hlt, hmem]

/-- One sequential step on a fresh head whose fetch fails. -/
theorem syncStep_none (fetch : String → Option (Nat × HtmlNode))
    (cfg : CrawlConfig) (dom : String) (mp dl : Nat) (url : String)
    (d : Nat) (rest : List (String × Nat)) (vis : Finset String)
    (res : List PageRecord) (hlt : res.length < mp) (hmem : url ∉ vis)
    (hfe : fetch url = none) :
    syncCrawlLoop fetch cfg dom mp dl ((url, d) :: rest) vis res =
      ((syncCrawlLoop fetch cfg dom mp dl rest (insert url vis) res).1,
       (url, d) ::
         (syncCrawlLoop fetch cfg dom mp dl rest (insert url vis) res).2) := by
  rw [syncCrawlLoop]
  simp [hlt, hmem, hfe]

/-- One sequential step on a fresh head whose extraction raises. -/
theorem syncStep_extractErr (fetch : String → Option (Nat × HtmlNode))
    (cfg : CrawlConfig) (dom : String) (mp dl : Nat) (url : String)
    (d : Nat) (rest : List (String × Nat)) (vis : Finset String)
    (res : List PageRecord) (st : Nat) (doc : HtmlNode) (err : ExtractErr)
    (hlt : res.length < mp) (hmem : url ∉ vis)
    (hfe : fetch url = some (st, doc)) (hst : statusOk st = true)
    (hce : extractContent doc = Except.error err) :
    syncCrawlLoop fetch cfg dom mp dl ((url, d) :: rest) vis res =
      ((syncCrawlLoop fetch cfg dom mp dl rest (insert url vis) res).1,
       (url, d) ::
         (syncCrawlLoop fetch cfg dom mp dl rest (insert url vis) res).2) := by
  rw [syncCrawlLoop]
  simp [hlt, hmem, hfe, hst, hce]

/-- One sequential step on a fresh head with a fully successful
pipeline: the record is appended and (below the depth limit) the fresh
filtered links are enqueued. -/
theorem syncStep_ok (fetch : String → Option (Nat × HtmlNode))
    (cfg : CrawlConfig) (dom : String) (mp dl : Nat) (url : String)
    (d : Nat) (rest : List (String × Nat)) (vis : Finset String)
    (res : List PageRecord) (st : Nat) (doc : HtmlNode)
    (sc : StructuredContent) (links fl : List String)
    (hlt : res.length < mp) (hmem : url ∉ vis)
    (hfe : fetch url = some (st, doc)) (hst : statusOk st = true)
    (hce : extractContent doc = Except.ok sc)
    (hle : extractLinks doc url = some links)
    (hfl : filterLinks cfg dom links = some fl) :
    syncCrawlLoop fetch cfg dom mp dl ((url, d) :: rest) vis res =
      ((syncCrawlLoop fetch cfg dom mp dl
          (rest ++ (if d < dl then
            (fl.filter (fun l => decide (l ∉ insert url vis))).map
              (fun l => (l, d + 1)) else []))
          (insert url vis)
          (res ++ [({ url := url, title := extractTitle doc, content := sc,
                      depth := d, status := st } : PageRecord)])).1,
       (url, d) ::
         (syncCrawlLoop fetch cfg dom mp dl
          (rest ++ (if d < dl then
            (fl.filter (fun l => decide (l ∉ insert url vis))).map
              (fun l => (l, d + 1)) else []))
          (insert url vis)
          (res ++ [({ url := url, title := extractTitle doc, content := sc,
                      depth := d, status := st } : PageRecord)])).2) := by
  rw [syncCrawlLoop]
  by_cases hd : d < dl <;>
    simp [hlt, hmem, hfe, hst, hce, hle, hfl, hd]

/-- One concurrent step at batch size 1 on an already-visited head:
no task is created, but the URL is (re)marked visited. -/
theorem asyncStep_visited (fetch : String → Option (Nat × HtmlNode))
    (cfg : CrawlConfig) (dom : String) (mp dl : Nat) (url : String)
    (d : Nat) (rest : List (String × Nat)) (vis : Finset String)
    (res : List PageRecord) (hbs : cfg.batchSize = 1)
    (hlt : res.length < mp) (hmem : url ∈ vis) :
    asyncCrawlLoop fetch cfg dom mp dl ((url, d) :: rest) vis res =
      asyncCrawlLoop fetch cfg dom mp dl rest (vis ∪ {url}) res := by
  rw [asyncCrawlLoop]
  simp [hbs, hlt, hmem, processBatch, Finset.union_insert,
    Finset.union_empty]

/-- One concurrent step at batch size 1 whose task fails. -/
theorem asyncStep_none (fetch : String → Option (Nat × HtmlNode))
    (cfg : CrawlConfig) (dom : String) (mp dl : Nat) (url : String)
    (d : Nat) (rest : List (String × Nat)) (vis : Finset String)
    (res : List PageRecord) (hbs : cfg.batchSize = 1)
    (hlt : res.length < mp) (hmem : url ∉ vis)
    (hfp : fetchParseAsync fetch cfg dom url d = none) :
    asyncCrawlLoop fetch cfg dom mp dl ((url, d) :: rest) vis res =
      ((asyncCrawlLoop fetch cfg dom mp dl rest (vis ∪ {url}) res).1,
       (url, d) ::
         (asyncCrawlLoop fetch cfg dom mp dl rest (vis ∪ {url}) res).2) := by
  rw [asyncCrawlLoop]
  simp [hbs, hlt, hmem, hfp, processBatch, Finset.union_insert,
    Finset.union_empty]

/-- One concurrent step at batch size 1 whose task succeeds. -/
theorem asyncStep_some (fetch : String → Option (Nat × HtmlNode))
    (cfg : CrawlConfig) (dom : String) (mp dl : Nat) (url : String)
    (d : Nat) (rest : List (String × Nat)) (vis : Finset String)
    (res : List PageRecord) (rec : PageRecord) (fl : List String)
    (hbs : cfg.batchSize = 1) (hlt : res.length < mp) (hmem : url ∉ vis)
    (hfp : fetchParseAsync fetch cfg dom url d = some (rec, fl)) :
    asyncCrawlLoop fetch cfg dom mp dl ((url, d) :: rest) vis res =
      ((asyncCrawlLoop fetch cfg dom mp dl
          (rest ++ (if d < dl then
            (fl.filter (fun l => decide (l ∉ vis ∪ {url}))).map
              (fun l => (l, d + 1)) else []))
          (vis ∪ {url}) (res ++ [rec])).1,
       (url, d) ::
         (asyncCrawlLoop fetch cfg dom mp dl
          (rest ++ (if d < dl then
            (fl.filter (fun l => decide (l ∉ vis ∪ {url}))).map
              (fun l => (l, d + 1)) else []))
          (vis ∪ {url}) (res ++ [rec])).2) := by
  rw [asyncCrawlLoop]
  by_cases hd : d < dl <;>
    simp [hbs, hlt, hmem, hfp, processBatch, Finset.union_insert,
      Finset.union_empty, hd]

/-- At batch size 1, when every response carries status 200 and the
link stage (extraction and filtering) succeeds on every successfully
extracted page, the concurrent loop computes exactly the sequential
loop: same records in the same order, same dispatch trace. -/
theorem asyncLoop_eq_syncLoop_batch_one
    (fetch : String → Option (Nat × HtmlNode)) (cfg cfg2 : CrawlConfig)
    (dom : String) (mp dl : Nat)
    (hbs : cfg.batchSize = 1)
    (hfl2 : ∀ links, filterLinks cfg2 dom links = filterLinks cfg dom links)
    (h200 : ∀ u st doc, fetch u = some (st, doc) → st = 200)
    (hlinks : ∀ u doc sc, fetch u = some (200, doc) →
      extractContent doc = Except.ok sc →
      ∃ links fl, extractLinks doc u = some links ∧
        filterLinks cfg dom links = some fl) :
    ∀ (tv : List (String × Nat)) (vis : Finset String)
      (res : List PageRecord),
      asyncCrawlLoop fetch cfg dom mp dl tv vis res =
      syncCrawlLoop fetch cfg2 dom mp dl tv vis res := by
  intro tv vis res
  induction tv, vis, res using asyncCrawlLoop.induct fetch cfg dom mp dl with
  | case1 vis res =>
    rw [asyncCrawlLoop, syncCrawlLoop]
    simp
  | case2 tv vis res h1 h2 hbs0 =>
    exact absurd (hbs.symm.trans hbs0) one_ne_zero
  | case3 tv vis res h1 h2 hbs0 batch rest tasks vis' outcomes processed ih =>
    obtain ⟨⟨url, d⟩, rest0, rfl⟩ := List.exists_cons_of_ne_nil h1
    have hset : vis ∪ ({url} : Finset String) = insert url vis := by
      ext x
      simp [or_comm]
    have hbatch : batch = [(url, d)] := by
      simp [batch, hbs]
    have hrest : rest = rest0 := by
      simp [rest, hbs]
    by_cases hmem : url ∈ vis
    · have htasks : tasks = [] := by
        simp [tasks, hbatch, hmem]
      have houtc : outcomes = [] := by
        simp [outcomes, htasks]
      have hp1 : processed.1 = [] := by
        simp [processed, houtc, processBatch]
      have hp2 : processed.2 = [] := by
        simp [processed, houtc, processBatch]
      have hvis' : vis' = vis := by
        simp [vis', hbatch, hset, Finset.insert_eq_self.mpr hmem]
      rw [hrest, hp1, hp2, hvis'] at ih
      simp only [List.append_nil] at ih
      rw [asyncStep_visited fetch cfg dom mp dl url d rest0 vis res hbs h2
          hmem,
        syncStep_visited fetch cfg2 dom mp dl url d rest0 vis res h2 hmem,
        hset, Finset.insert_eq_self.mpr hmem]
      exact ih
    · have htasks : tasks = [(url, d)] := by
        simp [tasks, hbatch, hmem]
      have houtc : outcomes =
          [((url, d), fetchParseAsync fetch cfg dom url d)] := by
        simp [outcomes, htasks]
      have hvis' : vis' = insert url vis := by
        simp [vis', hbatch, hset]
      rcases hfe : fetch url with _ | ⟨st, doc⟩
      · have hfp : fetchParseAsync fetch cfg dom url d = none := by
          simp [fetchParseAsync, hfe]
        have hp1 : processed.1 = [] := by
          simp [processed, houtc, hfp, processBatch]
        have hp2 : processed.2 = [] := by
          simp [processed, houtc, hfp, processBatch]
        rw [hrest, hp1, hp2, hvis'] at ih
        simp only [List.append_nil] at ih
        rw [asyncStep_none fetch cfg dom mp dl url d rest0 vis res hbs h2
            hmem hfp,
          syncStep_none fetch cfg2 dom mp dl url d rest0 vis res h2 hmem
            hfe,
          hset, ih]
      · have hst : st = 200 := h200 url st doc hfe
        subst hst
        rcases hce : extractContent doc with err | sc
        · have hfp : fetchParseAsync fetch cfg dom url d = none := by
            simp [fetchParseAsync, hfe, hce, Except.toOption]
          have hp1 : processed.1 = [] := by
            simp [processed, houtc, hfp, processBatch]
          have hp2 : processed.2 = [] := by
            simp [processed, houtc, hfp, processBatch]
          rw [hrest, hp1, hp2, hvis'] at ih
          simp only [List.append_nil] at ih
          rw [asyncStep_none fetch cfg dom mp dl url d rest0 vis res hbs h2
              hmem hfp,
            syncStep_extractErr fetch cfg2 dom mp dl url d rest0 vis res
              200 doc err h2 hmem hfe (by decide) hce,
            hset, ih]
        · obtain ⟨links, fl, hle, hfl⟩ := hlinks url doc sc hfe hce
          have hfp : fetchParseAsync fetch cfg dom url d =
              some (({ url := url, title := extractTitle doc, content := sc,
                       depth := d, status := 200 } : PageRecord), fl) := by
            simp [fetchParseAsync, hfe, hce, hle, hfl, Except.toOption]
          have hp1 : processed.1 =
              [({ url := url, title := extractTitle doc, content := sc,
                  depth := d, status := 200 } : PageRecord)] := by
            simp [processed, houtc, hfp, processBatch]
          have hp2 : processed.2 = (if d < dl then
              (fl.filter (fun l => decide (l ∉ insert url vis))).map
                (fun l => (l, d + 1)) else []) := by
            simp [processed, houtc, hfp, processBatch, hvis']
          rw [hrest, hp1, hp2, hvis'] at ih
          rw [asyncStep_some fetch cfg dom mp dl url d rest0 vis res _ fl hbs
              h2 hmem hfp,
            syncStep_ok fetch cfg2 dom mp dl url d rest0 vis res 200 doc
              sc links fl h2 hmem hfe (by decide) hce hle
              ((hfl2 links).trans hfl),
            hset, ih]
  | case4 tv vis res h1 h2 =>
    obtain ⟨⟨url, d⟩, rest0, rfl⟩ := List.exists_cons_of_ne_nil h1
    rw [asyncCrawlLoop, syncCrawlLoop]
    simp [h2]

/-- One sequential step on a fresh head whose status fails
`raise_for_status`. -/
theorem syncStep_statusBad (fetch : String → Option (Nat × HtmlNode))
    (cfg : CrawlConfig) (dom : String) (mp dl : Nat) (url : String)
    (d : Nat) (rest : List (String × Nat)) (vis : Finset String)
    (res : List PageRecord) (st : Nat) (doc : HtmlNode)
    (hlt : res.length < mp) (hmem : url ∉ vis)
    (hfe : fetch url = some (st, doc)) (hst : statusOk st = false) :
    syncCrawlLoop fetch cfg dom mp dl ((url, d) :: rest) vis res =
      ((syncCrawlLoop fetch cfg dom mp dl rest (insert url vis) res).1,
       (url, d) ::
         (syncCrawlLoop fetch cfg dom mp dl rest (insert url vis) res).2) := by
  rw [syncCrawlLoop]
  simp [hlt, hmem, hfe, hst]

/-- One sequential step on a fresh successful head at the depth limit:
record appended, links never touched. -/
theorem syncStep_okShallow (fetch : String → Option (Nat × HtmlNode))
    (cfg : CrawlConfig) (dom : String) (mp dl : Nat) (url : String)
    (d : Nat) (rest : List (String × Nat)) (vis : Finset String)
    (res : List PageRecord) (st : Nat) (doc : HtmlNode)
    (sc : StructuredContent)
    (hlt : res.length < mp) (hmem : url ∉ vis)
    (hfe : fetch url = some (st, doc)) (hst : statusOk st = true)
    (hce : extractContent doc = Except.ok sc) (hdd : ¬ d < dl) :
    syncCrawlLoop fetch cfg dom mp dl ((url, d) :: rest) vis res =
      ((syncCrawlLoop fetch cfg dom mp dl rest (insert url vis)
          (res ++ [({ url := url, title := extractTitle doc, content := sc,
                      depth := d, status := st } : PageRecord)])).1,
       (url, d) ::
         (syncCrawlLoop fetch cfg dom mp dl rest (insert url vis)
          (res ++ [({ url := url, title := extractTitle doc, content := sc,
                      depth := d, status := st } : PageRecord)])).2) := by
  rw [syncCrawlLoop]
  simp [hlt, hmem, hfe, hst, hce, hdd]

/-- One sequential step on a fresh successful head below the depth
limit whose link extraction raises. -/
theorem syncStep_linksNone (fetch : String → Option (Nat × HtmlNode))
    (cfg : CrawlConfig) (dom : String) (mp dl : Nat) (url : String)
    (d : Nat) (rest : List (String × Nat)) (vis : Finset String)
    (res : List PageRecord) (st : Nat) (doc : HtmlNode)
    (sc : StructuredContent)
    (hlt : res.length < mp) (hmem : url ∉ vis)
    (hfe : fetch url = some (st, doc)) (hst : statusOk st = true)
    (hce : extractContent doc = Except.ok sc) (hdd : d < dl)
    (hle : extractLinks doc url = none) :
    syncCrawlLoop fetch cfg dom mp dl ((url, d) :: rest) vis res =
      ((syncCrawlLoop fetch cfg dom mp dl rest (insert url vis)
          (res ++ [({ url := url, title := extractTitle doc, content := sc,
                      depth := d, status := st } : PageRecord)])).1,
       (url, d) ::
         (syncCrawlLoop fetch cfg dom mp dl rest (insert url vis)
          (res ++ [({ url := url, title := extractTitle doc, content := sc,
                      depth := d, status := st } : PageRecord)])).2) := by
  rw [syncCrawlLoop]
  simp [hlt, hmem, hfe, hst, hce, hdd, hle]

/-- One sequential step on a fresh successful head below the depth
limit whose link filtering raises. -/
theorem syncStep_filterNone (fetch : String → Option (Nat × HtmlNode))
    (cfg : CrawlConfig) (dom : String) (mp dl : Nat) (url : String)
    (d : Nat) (rest : List (String × Nat)) (vis : Finset String)
    (res : List PageRecord) (st : Nat) (doc : HtmlNode)
    (sc : StructuredContent) (links : List String)
    (hlt : res.length < mp) (hmem : url ∉ vis)
    (hfe : fetch url = some (st, doc)) (hst : statusOk st = true)
    (hce : extractContent doc = Except.ok sc) (hdd : d < dl)
    (hle : extractLinks doc url = some links)
    (hfl : filterLinks cfg dom links = none) :
    syncCrawlLoop fetch cfg dom mp dl ((url, d) :: rest) vis res =
      ((syncCrawlLoop fetch cfg dom mp dl rest (insert url vis)
          (res ++ [({ url := url, title := extractTitle doc, content := sc,
                      depth := d, status := st } : PageRecord)])).1,
       (url, d) ::
         (syncCrawlLoop fetch cfg dom mp dl rest (insert url vis)
          (res ++ [({ url := url, title := extractTitle doc, content := sc,
                      depth := d, status := st } : PageRecord)])).2) := by
  rw [syncCrawlLoop]
  simp [hlt, hmem, hfe, hst, hce, hdd, hle, hfl]

/-- Enqueue-trace step: already-visited head. -/
theorem syncEnqStep_visited (fetch : String → Option (Nat × HtmlNode))
    (cfg : CrawlConfig) (dom : String) (mp dl : Nat) (url : String)
    (d : Nat) (rest : List (String × Nat)) (vis : Finset String)
    (res : List PageRecord) (hlt : res.length < mp) (hmem : url ∈ vis) :
    syncEnqueues fetch cfg dom mp dl ((url, d) :: rest) vis res =
      syncEnqueues fetch cfg dom mp dl rest vis res := by
  rw [syncEnqueues]
  simp [hlt, hmem]

/-- Enqueue-trace step: fetch failure. -/
theorem syncEnqStep_none (fetch : String → Option (Nat × HtmlNode))
    (cfg : CrawlConfig) (dom : String) (mp dl : Nat) (url : String)
    (d : Nat) (rest : List (String × Nat)) (vis : Finset String)
    (res : List PageRecord) (hlt : res.length < mp) (hmem : url ∉ vis)
    (hfe : fetch url = none) :
    syncEnqueues fetch cfg dom mp dl ((url, d) :: rest) vis res =
      syncEnqueues fetch cfg dom mp dl rest (insert url vis) res := by
  rw [syncEnqueues]
  simp [hlt, hmem, hfe]

/-- Enqueue-trace step: status failure. -/
theorem syncEnqStep_statusBad (fetch : String → Option (Nat × HtmlNode))
    (cfg : CrawlConfig) (dom : String) (mp dl : Nat) (url : String)
    (d : Nat) (rest : List (String × Nat)) (vis : Finset String)
    (res : List PageRecord) (st : Nat) (doc : HtmlNode)
    (hlt : res.length < mp) (hmem : url ∉ vis)
    (hfe : fetch url = some (st, doc)) (hst : statusOk st = false) :
    syncEnqueues fetch cfg dom mp dl ((url, d) :: rest) vis res =
      syncEnqueues fetch cfg dom mp dl rest (insert url vis) res := by
  rw [syncEnqueues]
  simp [hlt, hmem, hfe, hst]

/-- Enqueue-trace step: extraction failure. -/
theorem syncEnqStep_extractErr (fetch : String → Option (Nat × HtmlNode))
    (cfg : CrawlConfig) (dom : String) (mp dl : Nat) (url : String)
    (d : Nat) (rest : List (String × Nat)) (vis : Finset String)
    (res : List PageRecord) (st : Nat) (doc : HtmlNode) (err : ExtractErr)
    (hlt : res.length < mp) (hmem : url ∉ vis)
    (hfe : fetch url = some (st, doc)) (hst : statusOk st = true)
    (hce : extractContent doc = Except.error err) :
    syncEnqueues fetch cfg dom mp dl ((url, d) :: rest) vis res =
      syncEnqueues fetch cfg dom mp dl rest (insert url vis) res := by
  rw [syncEnqueues]
  simp [hlt, hmem, hfe, hst, hce]

/-- Enqueue-trace step: success at the depth limit. -/
theorem syncEnqStep_okShallow (fetch : String → Option (Nat × HtmlNode))
    (cfg : CrawlConfig) (dom : String) (mp dl : Nat) (url : String)
    (d : Nat) (rest : List (String × Nat)) (vis : Finset String)
    (res : List PageRecord) (st : Nat) (doc : HtmlNode)
    (sc : StructuredContent)
    (hlt : res.length < mp) (hmem : url ∉ vis)
    (hfe : fetch url = some (st, doc)) (hst : statusOk st = true)
    (hce : extractContent doc = Except.ok sc) (hdd : ¬ d < dl) :
    syncEnqueues fetch cfg dom mp dl ((url, d) :: rest) vis res =
      syncEnqueues fetch cfg dom mp dl rest (insert url vis)
        (res ++ [({ url := url, title := extractTitle doc, content := sc,
                    depth := d, status := st } : PageRecord)]) := by
  rw [syncEnqueues]
  simp [hlt, hmem, hfe, hst, hce, hdd]

/-- Enqueue-trace step: success with raising link extraction. -/
theorem syncEnqStep_linksNone (fetch : String → Option (Nat × HtmlNode))
    (cfg : CrawlConfig) (dom : String) (mp dl : Nat) (url : String)
    (d : Nat) (rest : List (String × Nat)) (vis : Finset String)
    (res : List PageRecord) (st : Nat) (doc : HtmlNode)
    (sc : StructuredContent)
    (hlt : res.length < mp) (hmem : url ∉ vis)
    (hfe : fetch url = some (st, doc)) (hst : statusOk st = true)
    (hce : extractContent doc = Except.ok sc) (hdd : d < dl)
    (hle : extractLinks doc url = none) :
    syncEnqueues fetch cfg dom mp dl ((url, d) :: rest) vis res =
      syncEnqueues fetch cfg dom mp dl rest (insert url vis)
        (res ++ [({ url := url, title := extractTitle doc, content := sc,
                    depth := d, status := st } : PageRecord)]) := by
  rw [syncEnqueues]
  simp [hlt, hmem, hfe, hst, hce, hdd, hle]

/-- Enqueue-trace step: success with raising link filtering. -/
theorem syncEnqStep_filterNone (fetch : String → Option (Nat × HtmlNode))
    (cfg : CrawlConfig) (dom : String) (mp dl : Nat) (url : String)
    (d : Nat) (rest : List (String × Nat)) (vis : Finset String)
    (res : List PageRecord) (st : Nat) (doc : HtmlNode)
    (sc : StructuredContent) (links : List String)
    (hlt : res.length < mp) (hmem : url ∉ vis)
    (hfe : fetch url = some (st, doc)) (hst : statusOk st = true)
    (hce : extractContent doc = Except.ok sc) (hdd : d < dl)
    (hle : extractLinks doc url = some links)
    (hfl : filterLinks cfg dom links = none) :
    syncEnqueues fetch cfg dom mp dl ((url, d) :: rest) vis res =
      syncEnqueues fetch cfg dom mp dl rest (insert url vis)
        (res ++ [({ url := url, title := extractTitle doc, content := sc,
                    depth := d, status := st } : PageRecord)]) := by
  rw [syncEnqueues]
  simp [hlt, hmem, hfe, hst, hce, hdd, hle, hfl]

/-- Enqueue-trace step: fully successful pipeline below the depth
limit — the fresh filtered links are emitted as enqueue events. -/
theorem syncEnqStep_okDeep (fetch : String → Option (Nat × HtmlNode))
    (cfg : CrawlConfig) (dom : String) (mp dl : Nat) (url : String)
    (d : Nat) (rest : List (String × Nat)) (vis : Finset String)
    (res : List PageRecord) (st : Nat) (doc : HtmlNode)
    (sc : StructuredContent) (links fl : List String)
    (hlt : res.length < mp) (hmem : url ∉ vis)
    (hfe : fetch url = some (st, doc)) (hst : statusOk st = true)
    (hce : extractContent doc = Except.ok sc) (hdd : d < dl)
    (hle : extractLinks doc url = some links)
    (hfl : filterLinks cfg dom links = some fl) :
    syncEnqueues fetch cfg dom mp dl ((url, d) :: rest) vis res =
      ((fl.filter (fun l => decide (l ∉ insert url vis))).map
        (fun l => (l, d + 1))) ++
      syncEnqueues fetch cfg dom mp dl
        (rest ++ ((fl.filter (fun l => decide (l ∉ insert url vis))).map
          (fun l => (l, d + 1))))
        (insert url vis)
        (res ++ [({ url := url, title := extractTitle doc, content := sc,
                    depth := d, status := st } : PageRecord)]) := by
  rw [syncEnqueues]
  simp [hlt, hmem, hfe, hst, hce, hdd, hle, hfl]

/-- The sequential loop dispatches in FIFO queue order: the dispatch
trace is a subsequence of the initial frontier followed by the enqueue
trace.  Entries are popped in the order they entered `to_visit`
(skipping the already-visited ones) — in particular, within one depth
level, dispatch follows enqueue order. -/
theorem syncCrawlLoop_fifo (fetch : String → Option (Nat × HtmlNode))
    (cfg : CrawlConfig) (dom : String) (mp dl : Nat)
    (tv : List (String × Nat)) (vis : Finset String)
    (res : List PageRecord) :
    List.Sublist (syncCrawlLoop fetch cfg dom mp dl tv vis res).2
      (tv ++ syncEnqueues fetch cfg dom mp dl tv vis res) := by
  induction tv, vis, res using syncCrawlLoop.induct fetch cfg dom mp dl with
  | case1 vis res =>
    rw [syncCrawlLoop, syncEnqueues]
    simp
  | case2 url d rest vis res hlt hmem ih =>
    rw [syncStep_visited fetch cfg dom mp dl url d rest vis res hlt hmem,
      syncEnqStep_visited fetch cfg dom mp dl url d rest vis res hlt hmem]
    exact List.Sublist.cons _ ih
  | case3 url d rest vis res hlt hmem vis' ih3 ih2 ih1 =>
    rcases hfe : fetch url with _ | ⟨st, doc⟩
    · rw [syncStep_none fetch cfg dom mp dl url d rest vis res hlt hmem hfe,
        syncEnqStep_none fetch cfg dom mp dl url d rest vis res hlt hmem hfe]
      exact List.Sublist.cons₂ _ ih3
    · cases hst : statusOk st with
      | false =>
        rw [syncStep_statusBad fetch cfg dom mp dl url d rest vis res st doc
            hlt hmem hfe hst,
          syncEnqStep_statusBad fetch cfg dom mp dl url d rest vis res st
            doc hlt hmem hfe hst]
        exact List.Sublist.cons₂ _ ih3
      | true =>
        rcases hce : extractContent doc with err | sc
        · rw [syncStep_extractErr fetch cfg dom mp dl url d rest vis res st
              doc err hlt hmem hfe hst hce,
            syncEnqStep_extractErr fetch cfg dom mp dl url d rest vis res
              st doc err hlt hmem hfe hst hce]
          exact List.Sublist.cons₂ _ ih3
        · by_cases hdd : d < dl
          · rcases hle : extractLinks doc url with _ | links
            · rw [syncStep_linksNone fetch cfg dom mp dl url d rest vis res
                  st doc sc hlt hmem hfe hst hce hdd hle,
                syncEnqStep_linksNone fetch cfg dom mp dl url d rest vis
                  res st doc sc hlt hmem hfe hst hce hdd hle]
              exact List.Sublist.cons₂ _ (ih2 st doc sc)
            · rcases hfl : filterLinks cfg dom links with _ | fl
              · rw [syncStep_filterNone fetch cfg dom mp dl url d rest vis
                    res st doc sc links hlt hmem hfe hst hce hdd hle hfl,
                  syncEnqStep_filterNone fetch cfg dom mp dl url d rest
                    vis res st doc sc links hlt hmem hfe hst hce hdd hle
                    hfl]
                exact List.Sublist.cons₂ _ (ih2 st doc sc)
              · rw [syncStep_ok fetch cfg dom mp dl url d rest vis res st
                    doc sc links fl hlt hmem hfe hst hce hle hfl,
                  syncEnqStep_okDeep fetch cfg dom mp dl url d rest vis
                    res st doc sc links fl hlt hmem hfe hst hce hdd hle
                    hfl]
                simp only [if_pos hdd]
                refine List.Sublist.cons₂ _ ?_
                have h := ih1 st doc sc fl
                simp only [List.append_assoc] at h
                exact h
          · rw [syncStep_okShallow fetch cfg dom mp dl url d rest vis res
                st doc sc hlt hmem hfe hst hce hdd,
              syncEnqStep_okShallow fetch cfg dom mp dl url d rest vis res
                st doc sc hlt hmem hfe hst hce hdd]
            exact List.Sublist.cons₂ _ (ih2 st doc sc)
  | case4 url d rest vis res hlt =>
    rw [syncCrawlLoop, syncEnqueues]
    simp [hlt]

/-- The concurrent loop dispatches in FIFO queue order (counterpart of
`syncCrawlLoop_fifo`): the dispatch trace is a subsequence of the
initial frontier followed by the enqueue trace. -/
theorem asyncCrawlLoop_fifo (fetch : String → Option (Nat × HtmlNode))
    (cfg : CrawlConfig) (dom : String) (mp dl : Nat)
    (tv : List (String × Nat)) (vis : Finset String)
    (res : List PageRecord) :
    List.Sublist (asyncCrawlLoop fetch cfg dom mp dl tv vis res).2
      (tv ++ asyncEnqueues fetch cfg dom mp dl tv vis res) := by
  induction tv, vis, res using asyncCrawlLoop.induct fetch cfg dom mp dl with
  | case1 vis res =>
    rw [asyncCrawlLoop, asyncEnqueues]
    simp
  | case2 tv vis res h1 h2 hbs =>
    rw [asyncCrawlLoop, asyncEnqueues]
    simp only [dif_neg h1, dif_pos h2, dif_pos hbs]
    exact List.nil_sublist _
  | case3 tv vis res h1 h2 hbs batch rest tasks vis' outcomes processed ih =>
    rw [asyncCrawlLoop, asyncEnqueues]
    simp only [dif_neg h1, dif_pos h2, dif_neg hbs]
    have h1s : List.Sublist tasks batch := List.filter_sublist _
    have hcomb := List.Sublist.append h1s ih
    have heq2 : batch ++ ((rest ++ processed.2) ++
        asyncEnqueues fetch cfg dom mp dl (rest ++ processed.2) vis'
          (res ++ processed.1)) =
        tv ++ (processed.2 ++
        asyncEnqueues fetch cfg dom mp dl (rest ++ processed.2) vis'
          (res ++ processed.1)) := by
      conv_rhs => rw [← List.take_append_drop cfg.batchSize tv]
      simp only [batch, rest, List.append_assoc]
    exact heq2 ▸ hcomb
  | case4 tv vis res h1 h2 =>
    rw [asyncCrawlLoop, asyncEnqueues]
    simp only [dif_neg h1, dif_neg h2]
    exact List.nil_sublist _

/-- Reduction of an `Option` bind on a present value. -/
theorem bindSome {α β : Type} (a : α) (f : α → Option β) :
    ((some a : Option α) >>= f) = f a := rfl

/-- Every scheme of `uses_relative` is also in `uses_netloc`. -/
theorem usesRelative_subset_usesNetloc :
    ∀ s ∈ usesRelative, s ∈ usesNetloc := by decide

/-- **C7 (counterexample).** The href `foo:ab[cd` is accepted by the
link filter and normalizes against `http://h/` to `foo://ab[cd`, but
normalizing that output again raises a `ValueError` (the `[` lands in
the netloc with no closing bracket) instead of returning it
unchanged. -/
theorem normalize_not_idempotent :
    (!(leadsWith "#".data "foo:ab[cd".data ||
       leadsWith "javascript:".data "foo:ab[cd".data ||
       leadsWith "mailto:".data "foo:ab[cd".data)) = true ∧
    normalizeLink "http://h/" "foo:ab[cd" = some "foo://ab[cd" ∧
    normalizeLink "http://h/" "foo://ab[cd" = none := by decide

/-- **C7 (amended).** Normalization is idempotent on outputs that are
well-formed: if the first normalization's output `n` reparses into a
nonempty scheme, a nonempty netloc, an absolute (or empty) path with
no params, no fragment, and `n` is literally the rebuild of those
parts, then normalizing `n` against the same base returns `n`
unchanged. -/
theorem normalize_idempotent_wellformed (base href n : String)
    (b u : UrlParts)
    (h1 : normalizeLink base href = some n)
    (hbne : base.data ≠ [])
    (hb : urlparseL base.data [] = some b)
    (hu : urlparseL n.data b.scheme = some u)
    (hu0 : urlparseL n.data [] = some u)
    (hs : u.scheme ≠ []) (hn : u.netloc ≠ [])
    (hparams : u.params = []) (hfrag : u.fragment = [])
    (hshape : n.data = u.scheme ++ ':' :: '/' :: '/' ::
      (u.netloc ++ u.path) ++
      (if u.query ≠ [] then '?' :: u.query else []))
    (hpath : u.path = [] ∨ u.path.head? = some '/') :
    normalizeLink base n = some n := by
  have hnne : n.data ≠ [] := by
    rw [hshape]
    rcases hx : u.scheme with _ | ⟨c, cs⟩
    · exact absurd hx hs
    · simp
  have hbe : base.data.isEmpty = false := by
    rcases hx : base.data with _ | ⟨c, cs⟩
    · exact absurd hx hbne
    · rfl
  have hne2 : n.data.isEmpty = false := by
    rcases hx : n.data with _ | ⟨c, cs⟩
    · exact absurd hx hnne
    · rfl
  have hnet : u.netloc.isEmpty = false := by
    rcases hx : u.netloc with _ | ⟨c, cs⟩
    · exact absurd hx hn
    · rfl
  have hsch : u.scheme.isEmpty = false := by
    rcases hx : u.scheme with _ | ⟨c, cs⟩
    · exact absurd hx hs
    · rfl
  have hjoin : urljoinL base.data n.data = some n.data := by
    unfold urljoinL
    rw [if_neg (by simp [hbe]), if_neg (by simp [hne2])]
    simp only [hb, bindSome, hu]
    by_cases hcase : u.scheme ≠ b.scheme ∨ u.scheme ∉ usesRelative
    · rw [if_pos hcase]
      rfl
    · rw [if_neg hcase]
      push_neg at hcase
      obtain ⟨hbs', hrel⟩ := hcase
      have hnl : u.scheme ∈ usesNetloc :=
        usesRelative_subset_usesNetloc _ hrel
      rw [if_pos ⟨hnl, hn⟩]
      rw [hparams, hfrag]
      unfold urlunparseL urlunsplitL
      rcases hpath with hp0 | hp0
      · rw [hshape, hp0]
        by_cases hq : u.query = [] <;>
          simp [hq, hnet, hsch, List.append_assoc]
      · have hcond : (!u.path.isEmpty &&
            decide (u.path.head? ≠ some '/')) = false := by
          simp [hp0]
        rw [hshape]
        by_cases hq : u.query = [] <;>
          simp [hq, hnet, hsch, hcond, List.append_assoc] <;>
          exact fun _ => hp0
  unfold normalizeLink normalizeLinkL
  simp only [hjoin, bindSome, hu0, Option.pure_def]
  rw [← hshape]
  rfl

/-- Witness for the amended C7 on a concrete link. -/
theorem normalize_idempotent_wellformed_witness :
    normalizeLink "http://h/x" "a" = some "http://h/a" ∧
    normalizeLink "http://h/x" "http://h/a" = some "http://h/a" :=
  ⟨by decide,
   normalize_idempotent_wellformed "http://h/x" "a" "http://h/a"
     ⟨"http".data, "h".data, "/x".data, [], [], []⟩
     ⟨"http".data, "h".data, "/a".data, [], [], []⟩
     (by decide) (by decide) (by decide) (by decide) (by decide)
     (by decide) (by decide) (by decide) (by decide) (by decide)
     (by decide)⟩

/-- Extraction of the thead page raises (the `first_row` local is read
without having been assigned). -/
theorem theadContentErr :
    extractContent theadPage = .error .unboundLocalFirstRow := by decide

/-- The concurrent fetch-and-parse of the thead page fails. -/
theorem theadFP : fetchParseAsync theadFetch {} "t" "http://t/" 0 =
    none := by decide

set_option maxHeartbeats 1000000 in
/-- Concurrent run over the thead site: the page is fetched but no
record is emitted. -/
theorem theadAsyncRun :
    asyncCrawlLoop theadFetch {} "t" 9 9 [("http://t/", 0)] ∅ [] =
      ([], [("http://t/", 0)]) := by
  simp [asyncCrawlLoop, theadFetch, processBatch, theadFP, List.filter,
    List.map]
  try decide

set_option maxHeartbeats 1000000 in
/-- Sequential run over the thead site: the page is fetched but no
record is emitted. -/
theorem theadSyncRun :
    syncCrawlLoop theadFetch { asyncCrawling := false } "t" 9 9
      [("http://t/", 0)] ∅ [] = ([], [("http://t/", 0)]) := by
  simp [syncCrawlLoop, theadFetch, statusOk, theadContentErr, List.filter,
    List.map]
  try decide

/-- **C6 (counterexample).** A page holding a table whose header row
comes from a `<thead>` and which has data rows makes `_extract_tables`
raise; in both modes the page is dropped from the results — there is
no whole-document fallback — and the crawl of a site consisting of
that one page returns no records at all. -/
theorem thead_table_page_dropped :
    extractContent theadPage = .error .unboundLocalFirstRow ∧
    crawl theadFetch {} "http://t/" 9 9 = .ok ([], [("http://t/", 0)]) ∧
    crawl theadFetch { asyncCrawling := false } "http://t/" 9 9 =
      .ok ([], [("http://t/", 0)]) := by
  refine ⟨by decide, ?_, ?_⟩
  · rw [show crawl theadFetch {} "http://t/" 9 9 =
      .ok (asyncCrawlLoop theadFetch {} "t" 9 9 [("http://t/", 0)] ∅ [])
      from rfl, theadAsyncRun]
  · rw [show crawl theadFetch { asyncCrawling := false } "http://t/" 9 9 =
      .ok (syncCrawlLoop theadFetch { asyncCrawling := false } "t" 9 9
        [("http://t/", 0)] ∅ []) from rfl, theadSyncRun]

/-- **C6 (amended).** In both modes, every emitted record comes from a
page whose fetch passed the status check and whose structural
extraction succeeded, and its content is exactly that extraction's
output: a page whose extraction raises is dropped, never recovered by
a whole-document fallback. -/
theorem extraction_failure_drops_page
    (fetch : String → Option (Nat × HtmlNode)) (cfg : CrawlConfig)
    (s : String) (mp dl : Nat)
    (out : List PageRecord × List (String × Nat))
    (h : crawl fetch cfg s mp dl = .ok out) :
    ∀ r ∈ out.1, ∃ st doc sc, fetch r.url = some (st, doc) ∧
      statusOk st = true ∧ extractContent doc = Except.ok sc ∧
      r.content = sc := by
  obtain ⟨p, hp, hv, hm⟩ := crawl_ok_elim fetch cfg s mp dl out h
  rcases hm with ⟨hm', rfl⟩ | ⟨hm', rfl⟩
  · intro r hr
    rcases asyncCrawlLoop_provenance fetch cfg ⟨p.netloc⟩ mp dl
        [(s, 0)] ∅ [] r hr with h' | ⟨doc, sc, hfe, hce, hco⟩
    · simp at h'
    · exact ⟨200, doc, sc, hfe, rfl, hce, hco⟩
  · intro r hr
    rcases syncCrawlLoop_provenance fetch cfg ⟨p.netloc⟩ mp dl
        [(s, 0)] ∅ [] r hr with h' | h'
    · simp at h'
    · exact h'

/-- Witness for the amended C6 on a successful concrete crawl. -/
theorem extraction_failure_drops_page_witness :
    ∃ st doc sc, siteFetch "http://h/" = some (st, doc) ∧
      statusOk st = true ∧ extractContent doc = Except.ok sc ∧
      (siteRecord "http://h/" 0).content = sc := by
  have h := extraction_failure_drops_page siteFetch
    { asyncCrawling := false } "http://h/" 2 2
    ([siteRecord "http://h/" 0, siteRecord "http://h/a" 1],
     [("http://h/", 0), ("http://h/a", 1)])
    (by rw [show crawl siteFetch { asyncCrawling := false } "http://h/" 2 2 =
        .ok (syncCrawlLoop siteFetch { asyncCrawling := false } "h" 2 2
          [("http://h/", 0)] ∅ []) from rfl, siteSyncRun2])
  exact h (siteRecord "http://h/" 0) (by simp)

/-- The running maximum kept by Python `max(xs, key=f)` dominates the
seed and every scanned element. -/
theorem foldl_argmax_le (f : HtmlNode → Nat) :
    ∀ (xs : List HtmlNode) (a : HtmlNode),
      f a ≤ f (xs.foldl (fun acc y => if f y > f acc then y else acc) a) ∧
      ∀ y ∈ xs,
        f y ≤ f (xs.foldl (fun acc y => if f y > f acc then y else acc) a) := by
  intro xs
  induction xs with
  | nil => exact fun a => ⟨le_refl _, by simp⟩
  | cons z zs ih =>
    intro a
    simp only [List.foldl_cons]
    constructor
    · refine le_trans ?_ (ih _).1
      by_cases h : f z > f a
      · rw [if_pos h]; omega
      · rw [if_neg h]
    · intro y hy
      rcases List.mem_cons.mp hy with rfl | hy'
      · refine le_trans ?_ (ih _).1
        by_cases h : f y > f a
        · rw [if_pos h]
        · rw [if_neg h]; omega
      · exact (ih _).2 y hy'

/-- `max(xs, key=f)` attains the maximal key. -/
theorem argmaxFirst_le (f : HtmlNode → Nat) (l : List HtmlNode)
    (m : HtmlNode) (h : argmaxFirst f l = some m) :
    ∀ x ∈ l, f x ≤ f m := by
  cases l with
  | nil => simp [argmaxFirst] at h
  | cons x xs =>
    simp only [argmaxFirst, Option.some_inj] at h
    subst h
    intro y hy
    rcases List.mem_cons.mp hy with rfl | hy'
    · exact (foldl_argmax_le f xs y).1
    · exact (foldl_argmax_le f xs x).2 y hy'

/-- **C8.** On a document with no semantic container (`main`,
`article`, `section`) and no content id/class match, main-content
selection picks the generic `div` returned by `max(key=p-count)` —
which has the most paragraph descendants — exactly when that count
exceeds 2, and otherwise `extract_content`'s region falls back to the
document body. -/
theorem main_content_fallback (doc D : HtmlNode)
    (h1 : findTag "main" doc = none) (h2 : findTag "article" doc = none)
    (h3 : findTag "section" doc = none)
    (h4 : contentIds.findSome? (fun v => findById v doc) = none)
    (h5 : contentClasses.findSome? (fun v => findByClass v doc) = none)
    (h6 : argmaxFirst pCount (findAllTag "div" doc) = some D) :
    (∀ d ∈ findAllTag "div" doc, pCount d ≤ pCount D) ∧
    findMainContent doc = (if 2 < pCount D then some D else none) ∧
    (¬ 2 < pCount D →
      (findMainContent doc).getD ((findTag "body" doc).getD doc) =
        (findTag "body" doc).getD doc) := by
  have hm : findMainContent doc = (if 2 < pCount D then some D else none) := by
    unfold findMainContent
    rw [h1, h2, h3, h4, h5, h6]
  refine ⟨argmaxFirst_le pCount _ D h6, hm, fun hnot => ?_⟩
  rw [hm, if_neg hnot]
  rfl

/-- Witness for C8: the four-paragraph div among divs with fewer is
selected. -/
theorem main_content_fallback_witness :
    (∀ d ∈ findAllTag "div" divDoc, pCount d ≤ pCount bigDiv) ∧
    findMainContent divDoc = some bigDiv := by
  have h := main_content_fallback divDoc bigDiv (by decide) (by decide)
    (by decide) (by decide) (by decide) (by decide)
  refine ⟨h.1, ?_⟩
  rw [h.2.1]
  decide

/-- Every response of the concrete site carries status 200. -/
theorem siteFetch_status :
    ∀ u st doc, siteFetch u = some (st, doc) → st = 200 := by
  intro u st doc h
  unfold siteFetch at h
  split at h
  · injection h with h'
    exact (congrArg Prod.fst h').symm
  · split at h
    · injection h with h'
      exact (congrArg Prod.fst h').symm
    · split at h
      · injection h with h'
        exact (congrArg Prod.fst h').symm
      · split at h
        · injection h with h'
          exact (congrArg Prod.fst h').symm
        · exact absurd h (by simp)

/-- `_filter_links` never raises on a link whose parse succeeds. -/
theorem keepLink_isSome (cfg : CrawlConfig) (dom l : String) (p : UrlParts)
    (hp : urlparseS l = some p) : ∃ b, keepLink cfg dom l = some b := by
  unfold keepLink
  rw [hp]
  simp only [bindSome]
  split
  · exact ⟨false, rfl⟩
  · split
    · exact ⟨false, rfl⟩
    · split
      · exact ⟨false, rfl⟩
      · exact ⟨true, rfl⟩

/-- The per-link decisions of `_filter_links` all succeed when every
link parses. -/
theorem mapM_keepLink_isSome (cfg : CrawlConfig) (dom : String) :
    ∀ links : List String, (∀ l ∈ links, ∃ p, urlparseS l = some p) →
      ∃ ks, links.mapM (keepLink cfg dom) = some ks := by
  intro links
  induction links with
  | nil => exact fun _ => ⟨[], rfl⟩
  | cons a as ih =>
    intro h
    obtain ⟨p, hp⟩ := h a (by simp)
    obtain ⟨b, hb⟩ := keepLink_isSome cfg dom a p hp
    obtain ⟨ks, hks⟩ := ih (fun l hl => h l (List.mem_cons_of_mem _ hl))
    refine ⟨b :: ks, ?_⟩
    simp only [List.mapM_cons, hb, hks, bindSome]
    rfl

/-- `_filter_links` succeeds when every link parses. -/
theorem filterLinks_isSome (cfg : CrawlConfig) (dom : String)
    (links : List String) (h : ∀ l ∈ links, ∃ p, urlparseS l = some p) :
    ∃ fl, filterLinks cfg dom links = some fl := by
  obtain ⟨ks, hks⟩ := mapM_keepLink_isSome cfg dom links h
  refine ⟨(links.zip ks).filterMap fun lk =>
    if lk.2 then some lk.1 else none, ?_⟩
  unfold filterLinks
  rw [hks]
  rfl

/-- On the concrete site, the link stage succeeds for every page and
every session domain. -/
theorem siteFetch_links (cfg : CrawlConfig) :
    ∀ dom u doc sc, siteFetch u = some (200, doc) →
      extractContent doc = Except.ok sc →
      ∃ links fl, extractLinks doc u = some links ∧
        filterLinks cfg dom links = some fl := by
  intro dom u doc sc h _
  unfold siteFetch at h
  split at h
  · next hu =>
    subst hu
    injection h with h'
    have hdoc : doc = pageWith ["/a", "/b"] := (congrArg Prod.snd h').symm
    subst hdoc
    obtain ⟨fl, hfl⟩ := filterLinks_isSome cfg dom
      ["http://h/a", "http://h/b"] (by
        intro l hl
        simp only [List.mem_cons, List.not_mem_nil, or_false] at hl
        rcases hl with rfl | rfl
        · exact ⟨⟨"http".data, "h".data, "/a".data, [], [], []⟩, by decide⟩
        · exact ⟨⟨"http".data, "h".data, "/b".data, [], [], []⟩, by decide⟩)
    exact ⟨["http://h/a", "http://h/b"], fl, by decide, hfl⟩
  · split at h
    · next hu =>
      subst hu
      injection h with h'
      have hdoc : doc = pageWith ["/d"] := (congrArg Prod.snd h').symm
      subst hdoc
      obtain ⟨fl, hfl⟩ := filterLinks_isSome cfg dom ["http://h/d"] (by
        intro l hl
        simp only [List.mem_cons, List.not_mem_nil, or_false] at hl
        rcases hl with rfl
        exact ⟨⟨"http".data, "h".data, "/d".data, [], [], []⟩, by decide⟩)
      exact ⟨["http://h/d"], fl, by decide, hfl⟩
    · split at h
      · next hu =>
        subst hu
        injection h with h'
        have hdoc : doc = pageWith ["/d"] := (congrArg Prod.snd h').symm
        subst hdoc
        obtain ⟨fl, hfl⟩ := filterLinks_isSome cfg dom ["http://h/d"] (by
          intro l hl
          simp only [List.mem_cons, List.not_mem_nil, or_false] at hl
          rcases hl with rfl
          exact ⟨⟨"http".data, "h".data, "/d".data, [], [], []⟩, by decide⟩)
        exact ⟨["http://h/d"], fl, by decide, hfl⟩
      · split at h
        · next hu =>
          subst hu
          injection h with h'
          have hdoc : doc = pageWith [] := (congrArg Prod.snd h').symm
          subst hdoc
          obtain ⟨fl, hfl⟩ := filterLinks_isSome cfg dom [] (by
            intro l hl
            exact absurd hl (List.not_mem_nil l))
          exact ⟨[], fl, by decide, hfl⟩
        · exact absurd h (by simp)

/-- **C1 (counterexample).** On the concrete site with `max_pages = 2`
the two modes return *different* sets of emitted page URLs
(`http://h/b` is emitted only by the concurrent mode, because the last
batch overshoots the page limit), refuting the equivalence at the
default batch size. -/
theorem sync_async_url_sets_differ :
    crawl siteFetch {} "http://h/" 2 2 =
      .ok ([siteRecord "http://h/" 0, siteRecord "http://h/a" 1,
            siteRecord "http://h/b" 1],
           [("http://h/", 0), ("http://h/a", 1), ("http://h/b", 1)]) ∧
    crawl siteFetch { asyncCrawling := false } "http://h/" 2 2 =
      .ok ([siteRecord "http://h/" 0, siteRecord "http://h/a" 1],
           [("http://h/", 0), ("http://h/a", 1)]) ∧
    "http://h/b" ∈ [siteRecord "http://h/" 0, siteRecord "http://h/a" 1,
        siteRecord "http://h/b" 1].map PageRecord.url ∧
    "http://h/b" ∉ [siteRecord "http://h/" 0,
        siteRecord "http://h/a" 1].map PageRecord.url := by
  refine ⟨?_, ?_, by decide, by decide⟩
  · rw [show crawl siteFetch {} "http://h/" 2 2 =
      .ok (asyncCrawlLoop siteFetch {} "h" 2 2 [("http://h/", 0)] ∅ [])
      from rfl, siteAsyncRun2]
  · rw [show crawl siteFetch { asyncCrawling := false } "http://h/" 2 2 =
      .ok (syncCrawlLoop siteFetch { asyncCrawling := false } "h" 2 2
        [("http://h/", 0)] ∅ []) from rfl, siteSyncRun2]

/-- **C1 (amended).** With no batching (`batch_size = 1`), responses
that always carry status 200, and a link stage that never raises on a
successfully extracted page, the concurrent crawl equals the
sequential crawl of the same configuration exactly — same records in
the same order, same dispatch trace. -/
theorem sequential_concurrent_agree
    (fetch : String → Option (Nat × HtmlNode)) (cfg : CrawlConfig)
    (s : String) (mp dl : Nat)
    (hc : cfg.asyncCrawling = true) (hbs : cfg.batchSize = 1)
    (h200 : ∀ u st doc, fetch u = some (st, doc) → st = 200)
    (hlinks : ∀ dom u doc sc, fetch u = some (200, doc) →
      extractContent doc = Except.ok sc →
      ∃ links fl, extractLinks doc u = some links ∧
        filterLinks cfg dom links = some fl) :
    crawl fetch cfg s mp dl =
      crawl fetch { cfg with asyncCrawling := false } s mp dl := by
  unfold crawl
  rcases hp : urlparseS s with _ | p
  · rfl
  · show (if p.scheme = [] ∨ p.netloc = [] then
        Except.error (CrawlError.invalidSeed s)
      else if cfg.asyncCrawling = true then
        Except.ok (asyncCrawlLoop fetch cfg ⟨p.netloc⟩ mp dl [(s, 0)] ∅ [])
      else
        Except.ok (syncCrawlLoop fetch cfg ⟨p.netloc⟩ mp dl
          [(s, 0)] ∅ [])) =
      (if p.scheme = [] ∨ p.netloc = [] then
        Except.error (CrawlError.invalidSeed s)
      else if ({ cfg with asyncCrawling := false } :
          CrawlConfig).asyncCrawling = true then
        Except.ok (asyncCrawlLoop fetch { cfg with asyncCrawling := false }
          ⟨p.netloc⟩ mp dl [(s, 0)] ∅ [])
      else
        Except.ok (syncCrawlLoop fetch { cfg with asyncCrawling := false }
          ⟨p.netloc⟩ mp dl [(s, 0)] ∅ []))
    by_cases hv : p.scheme = [] ∨ p.netloc = []
    · rw [if_pos hv, if_pos hv]
    · rw [if_neg hv, if_neg hv, if_pos hc,
        if_neg (fun hcon => Bool.false_ne_true hcon)]
      exact congrArg Except.ok
        (asyncLoop_eq_syncLoop_batch_one fetch cfg
          { cfg with asyncCrawling := false } ⟨p.netloc⟩ mp dl hbs
          (fun links => rfl) h200 (hlinks ⟨p.netloc⟩) [(s, 0)] ∅ [])

/-- Witness for the amended C1: at batch size 1 the two modes agree on
the concrete site. -/
theorem sequential_concurrent_agree_witness :
    crawl siteFetch { batchSize := 1 } "http://h/" 2 2 =
      crawl siteFetch { batchSize := 1, asyncCrawling := false }
        "http://h/" 2 2 :=
  sequential_concurrent_agree siteFetch { batchSize := 1 } "http://h/" 2 2
    rfl rfl siteFetch_status (siteFetch_links { batchSize := 1 })

/-- **C9.** In both modes the dispatch order is breadth-first queue
order: the depths of the dispatched frontier entries are non-decreasing
over the run (no entry at depth `d+1` is dispatched before the accepted
depth-`d` entries), and the dispatch trace is a subsequence of the
enqueue trace (the seed followed by the entries appended to `to_visit`
in append order) — dequeues follow FIFO enqueue order, in particular
within one depth level. -/
theorem crawl_bfs_order (fetch : String → Option (Nat × HtmlNode))
    (cfg : CrawlConfig) (s : String) (mp dl : Nat)
    (out : List PageRecord × List (String × Nat))
    (h : crawl fetch cfg s mp dl = .ok out) :
    (out.2.map Prod.snd).Pairwise (· ≤ ·) ∧
    ∃ p, urlparseS s = some p ∧
      ((cfg.asyncCrawling = true ∧
        List.Sublist out.2 ((s, 0) ::
          asyncEnqueues fetch cfg ⟨p.netloc⟩ mp dl [(s, 0)] ∅ [])) ∨
       (cfg.asyncCrawling = false ∧
        List.Sublist out.2 ((s, 0) ::
          syncEnqueues fetch cfg ⟨p.netloc⟩ mp dl [(s, 0)] ∅ []))) := by
  obtain ⟨p, hp, hv, hm⟩ := crawl_ok_elim fetch cfg s mp dl out h
  rcases hm with ⟨hm', rfl⟩ | ⟨hm', rfl⟩
  · refine ⟨(asyncCrawlLoop_bfs fetch cfg ⟨p.netloc⟩ mp dl [(s, 0)] ∅ []
      (by simp)).1, p, hp, Or.inl ⟨hm', ?_⟩⟩
    exact asyncCrawlLoop_fifo fetch cfg ⟨p.netloc⟩ mp dl [(s, 0)] ∅ []
  · refine ⟨(syncCrawlLoop_bfs fetch cfg ⟨p.netloc⟩ mp dl [(s, 0)] ∅ []
      (by simp)).1, p, hp, Or.inr ⟨hm', ?_⟩⟩
    exact syncCrawlLoop_fifo fetch cfg ⟨p.netloc⟩ mp dl [(s, 0)] ∅ []

/-- Witness for C9 on the concrete site. -/
theorem crawl_bfs_order_witness :
    (((asyncCrawlLoop siteFetch {} "h" 9 2
        [("http://h/", 0)] ∅ []).2.map Prod.snd).Pairwise (· ≤ ·)) ∧
    ∃ p, urlparseS "http://h/" = some p ∧
      ((({} : CrawlConfig).asyncCrawling = true ∧
        List.Sublist
          (asyncCrawlLoop siteFetch {} "h" 9 2 [("http://h/", 0)] ∅ []).2
          (("http://h/", 0) ::
            asyncEnqueues siteFetch {} ⟨p.netloc⟩ 9 2
              [("http://h/", 0)] ∅ [])) ∨
       (({} : CrawlConfig).asyncCrawling = false ∧
        List.Sublist
          (asyncCrawlLoop siteFetch {} "h" 9 2 [("http://h/", 0)] ∅ []).2
          (("http://h/", 0) ::
            syncEnqueues siteFetch {} ⟨p.netloc⟩ 9 2
              [("http://h/", 0)] ∅ []))) :=
  crawl_bfs_order siteFetch {} "http://h/" 9 2 _ rfl

end Rufus
